import Mathlib

/-!
Verification of the record-linkage core of the london-food-ratings repository.

The development shallowly embeds the two matching variants of the repository:

* `MatchPy` models `match.py` (Google place as probe, FHRS records as
  candidates, 120 m cutoff, 0.70 name-similarity floor, linear distance ramp).
* `TestMatch` models the matcher in the second matching script (FHRS row as
  probe, Google places as candidates, 500 m cutoff, 0.5 combined-score floor,
  bucketed distance score, 0.7/0.2/0.1 weights).

Modelling conventions, used consistently below:

* Python strings are `List Char` (`Str`); the ASCII-only `str.upper`,
  `str.lower`, `str.strip`, `str.split`, `re.sub` behaviours used by the
  sources are embedded character by character (`Char.toUpper`/`Char.toLower`
  are exactly the ASCII case maps the sources rely on).
* Python floats are real numbers `ℝ`; the scripts' NaN sentinel for a
  missing/unparseable coordinate (`float("nan")`, checked with `x != x`)
  and `safe_float`'s `None` are both embedded as `Option ℝ` with `none` for
  the missing value, so `x != x` checks become `Option` pattern matches.
* The external fuzzy-similarity functions (`difflib.SequenceMatcher.ratio`
  in `match.py`, `rapidfuzz.fuzz.token_sort_ratio` in the second script) are
  not part of the repository; they are passed as explicit function
  parameters (`simFn`, `tsr`).
* Row dictionaries are embedded as structures carrying exactly the fields
  the matching code reads.
-/

/-- Python strings, embedded as lists of characters. -/
abbrev Str := List Char

/-- ASCII whitespace, as matched by Python's `str.split()`/`str.strip()`
and the regex class `\s` for the character set these sources produce. -/
def isWS (c : Char) : Bool :=
  c = ' ' || c = '\t' || c = '\n' || c = '\x0b' || c = '\x0c' || c = '\r'

/-- The character class `[A-Z0-9 ]` kept by `normalize_name`'s regex. -/
def isKeep (c : Char) : Bool :=
  ('A' ≤ c && c ≤ 'Z') || ('0' ≤ c && c ≤ '9') || c = ' '

namespace TestMatch

/-- `norm_str`'s `s.split()`: split on runs of whitespace, discarding
empty pieces (Python's no-argument `str.split`). -/
def pySplit : Str → List Str
  | [] => []
  | [c] => if isWS c then [] else [[c]]
  | c :: d :: rest =>
    if isWS c then pySplit (d :: rest)
    else if isWS d then [c] :: pySplit (d :: rest)
    else
      match pySplit (d :: rest) with
      | [] => [[c]]
      | w :: r => (c :: w) :: r

/-- Python `str.strip()`: drop leading and trailing whitespace. -/
def pyStrip (l : Str) : Str :=
  ((l.dropWhile isWS).reverse.dropWhile isWS).reverse

/-- `" ".join(words)`. -/
def joinSpace : List Str → Str
  | [] => []
  | [w] => w
  | w :: ws => w ++ ' ' :: joinSpace ws

/-- `norm_str(s)`: `" ".join(s.lower().strip().split()) if s else ""`. -/
def norm_str (s : Str) : Str :=
  if s = [] then [] else joinSpace (pySplit (pyStrip (s.map Char.toLower)))

/-- `norm_postcode(pc)`: `(pc or "").replace(" ", "").upper()`. -/
def norm_postcode (pc : Str) : Str :=
  (pc.filter (fun c => c ≠ ' ')).map Char.toUpper

end TestMatch

namespace MatchPy

/-- `STOP_SUFFIXES = [" LTD", " LIMITED"]`. -/
def STOP_SUFFIXES : List Str := [(" LTD").toList, (" LIMITED").toList]

/-- `s.replace("&", " AND ")`. -/
def replaceAmp (l : Str) : Str :=
  l.flatMap fun c => if c = '&' then (" AND ").toList else [c]

/-- The suffix-stripping loop of `normalize_name`: for each suffix in
`STOP_SUFFIXES`, in order, drop it once if the current string ends with it
(`s = s[:-len(suf)]`). -/
def stripSuffixes (l : Str) : Str :=
  STOP_SUFFIXES.foldl
    (fun s suf => if suf.isSuffixOf s then s.take (s.length - suf.length) else s) l

/-- `re.sub(r"\s+", " ", s)`: replace every maximal whitespace run by a
single space. -/
def collapseWS : Str → Str
  | [] => []
  | [c] => if isWS c then [' '] else [c]
  | c :: d :: rest =>
    if isWS c && isWS d then collapseWS (d :: rest)
    else (if isWS c then ' ' else c) :: collapseWS (d :: rest)

/-- Python `str.strip()` as used at the end of `normalize_name`. -/
def pyStrip (l : Str) : Str :=
  ((l.dropWhile isWS).reverse.dropWhile isWS).reverse

/-- `normalize_name` from `match.py`: uppercase, expand `&` to `" AND "`,
strip one trailing legal-entity suffix per entry of `STOP_SUFFIXES`, drop
characters outside `[A-Z0-9 ]`, collapse whitespace runs, trim. -/
def normalize_name (s : Str) : Str :=
  if s = [] then []
  else pyStrip (collapseWS
    ((stripSuffixes (replaceAmp (s.map Char.toUpper))).filter isKeep))

end MatchPy

open Real in
/-- Python's `math.atan2 y x` for real arguments. -/
noncomputable def atan2 (y x : ℝ) : ℝ :=
  if 0 < x then arctan (y / x)
  else if x < 0 ∧ 0 ≤ y then arctan (y / x) + π
  else if x < 0 ∧ y < 0 then arctan (y / x) - π
  else if x = 0 ∧ 0 < y then π / 2
  else if x = 0 ∧ y < 0 then -(π / 2)
  else 0

/-- Python's `math.radians`: degrees to radians. -/
noncomputable def radians (x : ℝ) : ℝ := x * Real.pi / 180

namespace MatchPy

/-- `MAX_DISTANCE_METERS = 120.0` in `match.py`. -/
noncomputable def MAX_DISTANCE_METERS : ℝ := 120

/-- `MIN_NAME_SIMILARITY = 0.70` in `match.py`. -/
noncomputable def MIN_NAME_SIMILARITY : ℝ := 0.70

open Real in
/-- `haversine_m` from `match.py`: great-circle distance in meters with
Earth radius 6,371,000 m, computed through `atan2`. -/
noncomputable def haversine_m (lat1 lon1 lat2 lon2 : ℝ) : ℝ :=
  let R : ℝ := 6371000
  let phi1 := radians lat1
  let phi2 := radians lat2
  let dphi := radians (lat2 - lat1)
  let dlambda := radians (lon2 - lon1)
  let a := sin (dphi / 2) ^ 2 + cos phi1 * cos phi2 * sin (dlambda / 2) ^ 2
  let c := 2 * atan2 (sqrt a) (sqrt (1 - a))
  R * c

/-- A loaded row of the Google places CSV as read by `match.py`:
`name`, and the result of `safe_float` on `latitude`/`longitude`
(`none` for a missing or unparseable field). -/
structure GoogleRow where
  name : Str
  latitude : Option ℝ
  longitude : Option ℝ

/-- A loaded FHRS CSV row as read by `match.py`: `business_name` and the
parsed `latitude`/`longitude`. -/
structure FhrsRec where
  business_name : Str
  latitude : Option ℝ
  longitude : Option ℝ

/-- `max_deg = MAX_DISTANCE_METERS / 111_000.0`, the rough degree window
precomputed by `match_one_place`. -/
noncomputable def max_deg : ℝ := MAX_DISTANCE_METERS / 111000

/-- The loop body of `match_one_place` over one FHRS record: skip records
without coordinates, records outside the rough degree window, records
farther than `MAX_DISTANCE_METERS`, and records whose normalized-name
similarity is below `MIN_NAME_SIMILARITY`; otherwise keep the record with
its distance, similarity and score when its score beats the best so far.
The accumulator is `(best, best_score)` with `best` carrying
`(record, _match_distance_m, _match_name_similarity, _match_score)`. -/
noncomputable def mopStep (plat plng : ℝ) (g_name_norm : Str)
    (simFn : Str → Str → ℝ)
    (acc : Option (FhrsRec × ℝ × ℝ × ℝ) × ℝ) (f : FhrsRec) :
    Option (FhrsRec × ℝ × ℝ × ℝ) × ℝ :=
  match f.latitude, f.longitude with
  | some flat, some flng =>
    if |flat - plat| > max_deg ∨ |flng - plng| > max_deg then acc
    else
      let dist := haversine_m plat plng flat flng
      if dist > MAX_DISTANCE_METERS then acc
      else
        let sim := simFn g_name_norm (normalize_name f.business_name)
        if sim < MIN_NAME_SIMILARITY then acc
        else
          let dist_component := max 0 (1 - dist / MAX_DISTANCE_METERS)
          let score := sim + dist_component
          if acc.2 < score then (some (f, dist, sim, score), score) else acc
  | _, _ => acc

/-- `match_one_place` from `match.py`: for one Google place, the best FHRS
record within the spatial and name thresholds, or `none`; a probe without
parsed coordinates immediately yields `none`. -/
noncomputable def match_one_place (place : GoogleRow) (fhrs_records : List FhrsRec)
    (simFn : Str → Str → ℝ) : Option (FhrsRec × ℝ × ℝ × ℝ) :=
  match place.latitude, place.longitude with
  | some plat, some plng =>
    let g_name_norm := normalize_name place.name
    (fhrs_records.foldl (mopStep plat plng g_name_norm simFn) (none, -1)).1
  | _, _ => none

end MatchPy

namespace TestMatch

/-- `MAX_DISTANCE_METERS = 500.0` in the second matching script. -/
noncomputable def MAX_DISTANCE_METERS : ℝ := 500

/-- `MIN_MATCH_SCORE = 0.5`. -/
noncomputable def MIN_MATCH_SCORE : ℝ := 0.5

/-- `LAT_DEG_WINDOW = 0.01`. -/
noncomputable def LAT_DEG_WINDOW : ℝ := 0.01

/-- `LNG_DEG_WINDOW = 0.015`. -/
noncomputable def LNG_DEG_WINDOW : ℝ := 0.015

open Real in
/-- `haversine` from the second matching script: great-circle distance in
meters with Earth radius 6,371,000 m, computed through `asin`. -/
noncomputable def haversine (lat1 lon1 lat2 lon2 : ℝ) : ℝ :=
  let R : ℝ := 6371000
  let dlat := radians (lat2 - lat1)
  let dlon := radians (lon2 - lon1)
  let a := sin (dlat / 2) ^ 2 +
    cos (radians lat1) * cos (radians lat2) * sin (dlon / 2) ^ 2
  let c := 2 * arcsin (sqrt a)
  R * c

/-- A loaded Google-places row as prepared by `load_places`: parsed
coordinates (`none` embeds the NaN written for an unparseable field) and
the precomputed `name_norm`/`address_norm` fields. -/
structure PlaceRow where
  place_id : Str
  latitude : Option ℝ
  longitude : Option ℝ
  name_norm : Str
  address_norm : Str

/-- A loaded FHRS row as prepared by `load_fhrs`: the precomputed
`business_name_norm`/`postcode_norm` fields and the parsed `lat`/`lng`. -/
structure FhrsRow where
  fhrs_id : Str
  business_name_norm : Str
  postcode_norm : Str
  lat : Option ℝ
  lng : Option ℝ

/-- `distance_component`: bucketed distance score; `None` scores 0. -/
noncomputable def distance_component (distance_m : Option ℝ) : ℝ :=
  match distance_m with
  | none => 0
  | some d =>
    if d ≤ 50 then 1
    else if d ≤ 150 then 0.7
    else if d ≤ 300 then 0.4
    else if d ≤ MAX_DISTANCE_METERS then 0.2
    else 0

/-- `postcode_signal`: 1.0 if the FHRS postcode (already uppercased and
space-free) occurs in the Google address after removing spaces and
uppercasing, else 0.0; 0.0 if either side is empty. -/
noncomputable def postcode_signal (fhrs_pc_norm google_address_norm : Str) : ℝ :=
  if fhrs_pc_norm = [] ∨ google_address_norm = [] then 0
  else
    let addr_pc_like := (google_address_norm.filter (fun c => c ≠ ' ')).map Char.toUpper
    if fhrs_pc_norm <:+: addr_pc_like then 1 else 0

/-- `compute_match_score`: returns `(combined, name_sim, distance_m)` where
`combined = 0.7 * name_sim / 100 + 0.2 * dist_score + 0.1 * pc_score`, the
distance is `none` when any of the four coordinates is missing, and
`name_sim` is the external token-sort ratio on the normalized names. -/
noncomputable def compute_match_score (fhrs_row : FhrsRow) (place : PlaceRow)
    (tsr : Str → Str → ℝ) : ℝ × ℝ × Option ℝ :=
  let name_sim := tsr fhrs_row.business_name_norm place.name_norm
  let name_score := name_sim / 100
  let distance_m : Option ℝ :=
    match fhrs_row.lat, fhrs_row.lng, place.latitude, place.longitude with
    | some lat_h, some lng_h, some lat_g, some lng_g =>
      some (haversine lat_h lng_h lat_g lng_g)
    | _, _, _, _ => none
  let dist_score := distance_component distance_m
  let pc_score := postcode_signal fhrs_row.postcode_norm place.address_norm
  (0.7 * name_score + 0.2 * dist_score + 0.1 * pc_score, name_sim, distance_m)

/-- The bounding-window test of `find_candidate_places` for one place:
places without coordinates never qualify. -/
noncomputable def inWindow (lat_h lng_h : ℝ) (p : PlaceRow) : Bool :=
  match p.latitude, p.longitude with
  | some lat_g, some lng_g =>
    decide (lat_h - LAT_DEG_WINDOW ≤ lat_g ∧ lat_g ≤ lat_h + LAT_DEG_WINDOW ∧
      lng_h - LNG_DEG_WINDOW ≤ lng_g ∧ lng_g ≤ lng_h + LNG_DEG_WINDOW)
  | _, _ => false

/-- `find_candidate_places`: the full collection when the FHRS row has no
coordinates, otherwise the places inside the fixed lat/lng window. -/
noncomputable def find_candidate_places (fhrs_row : FhrsRow)
    (places : List PlaceRow) : List PlaceRow :=
  match fhrs_row.lat, fhrs_row.lng with
  | some lat_h, some lng_h => places.filter (inWindow lat_h lng_h)
  | _, _ => places

/-- The hard distance re-check inside `match_one_fhrs`'s loop:
`dist_m is not None and dist_m > MAX_DISTANCE_METERS`. -/
noncomputable def tooFar (fhrs_row : FhrsRow) (tsr : Str → Str → ℝ)
    (p : PlaceRow) : Bool :=
  match (compute_match_score fhrs_row p tsr).2.2 with
  | some d => decide (MAX_DISTANCE_METERS < d)
  | none => false

/-- The loop body of `match_one_fhrs`: skip candidates that are strictly
farther than `MAX_DISTANCE_METERS`, keep the first strictly-better combined
score. The accumulator is `(best_place, best_score, best_name_score,
best_distance)`. -/
noncomputable def mofStep (fhrs_row : FhrsRow) (tsr : Str → Str → ℝ)
    (acc : Option PlaceRow × ℝ × ℝ × Option ℝ) (p : PlaceRow) :
    Option PlaceRow × ℝ × ℝ × Option ℝ :=
  let r := compute_match_score fhrs_row p tsr
  if tooFar fhrs_row tsr p then acc
  else if acc.2.1 < r.1 then (some p, r) else acc

/-- `match_one_fhrs`: best Google place for one FHRS row, returned as
`(best_place?, best_match_score, best_name_score, best_distance_m?)`. -/
noncomputable def match_one_fhrs (fhrs_row : FhrsRow) (places : List PlaceRow)
    (tsr : Str → Str → ℝ) : Option PlaceRow × ℝ × ℝ × Option ℝ :=
  let candidates := find_candidate_places fhrs_row places
  if candidates.isEmpty then (none, 0, 0, none)
  else
    let r := candidates.foldl (mofStep fhrs_row tsr) (none, -1, 0, none)
    if r.2.1 < MIN_MATCH_SCORE then (none, r.2) else r

end TestMatch

namespace MatchPy

/-- The distance `match_one_place` computes for a candidate with
coordinates (the value is irrelevant for candidates without them, which
the loop skips before computing any distance). -/
noncomputable def mopDist (plat plng : ℝ) (f : FhrsRec) : ℝ :=
  match f.latitude, f.longitude with
  | some flat, some flng => haversine_m plat plng flat flng
  | _, _ => 0

/-- The name similarity `match_one_place` computes for a candidate. -/
noncomputable def mopSim (g_name_norm : Str) (simFn : Str → Str → ℝ)
    (f : FhrsRec) : ℝ :=
  simFn g_name_norm (normalize_name f.business_name)

/-- The combined score `sim + max(0, 1 - dist / MAX_DISTANCE_METERS)`
`match_one_place` assigns to a candidate. -/
noncomputable def mopScore (plat plng : ℝ) (g_name_norm : Str)
    (simFn : Str → Str → ℝ) (f : FhrsRec) : ℝ :=
  mopSim g_name_norm simFn f +
    max 0 (1 - mopDist plat plng f / MAX_DISTANCE_METERS)

/-- All conditions under which `match_one_place`'s loop `continue`s past a
candidate: missing coordinates, outside the rough degree window, farther
than the cutoff, or name similarity below the floor. -/
noncomputable def mopSkip (plat plng : ℝ) (g_name_norm : Str)
    (simFn : Str → Str → ℝ) (f : FhrsRec) : Bool :=
  match f.latitude, f.longitude with
  | some flat, some flng =>
    decide (|flat - plat| > max_deg ∨ |flng - plng| > max_deg) ||
    decide (haversine_m plat plng flat flng > MAX_DISTANCE_METERS) ||
    decide (simFn g_name_norm (normalize_name f.business_name) <
      MIN_NAME_SIMILARITY)
  | _, _ => true

/-- Concrete probe: a Google place at latitude 0, longitude 0. -/
noncomputable def probe0 : GoogleRow :=
  { name := ("CAFE A").toList, latitude := some 0, longitude := some 0 }

/-- Concrete candidate at the same point as `probe0`. -/
noncomputable def fhrs0 : FhrsRec :=
  { business_name := ("CAFE A").toList, latitude := some 0, longitude := some 0 }

/-- Concrete probe whose latitude field failed to parse. -/
noncomputable def probeNoCoord : GoogleRow :=
  { name := ("CAFE A").toList, latitude := none, longitude := some 0 }

/-- Concrete probe at latitude 60°, longitude 0°. -/
noncomputable def probe60 : GoogleRow :=
  { name := ("CAFE A").toList, latitude := some 60, longitude := some 0 }

/-- Concrete candidate 0.002° of longitude (≈ 111 m) east of `probe60`,
with an identical name. -/
noncomputable def fhrs60 : FhrsRec :=
  { business_name := ("CAFE A").toList, latitude := some 60,
    longitude := some 0.002 }

/-- A name-similarity oracle that rates every pair 1.0 (the value
`difflib.SequenceMatcher.ratio` returns on identical strings). -/
noncomputable def simConst1 : Str → Str → ℝ := fun _ _ => 1

end MatchPy

namespace TestMatch

/-- Concrete FHRS probe whose coordinate fields failed to parse. -/
noncomputable def fhrsNC : FhrsRow :=
  { fhrs_id := ("1").toList, business_name_norm := ("cafe a").toList,
    postcode_norm := ("SW1A1AA").toList, lat := none, lng := none }

/-- Concrete FHRS probe at latitude 0, longitude 0. -/
noncomputable def fhrs00 : FhrsRow :=
  { fhrs_id := ("1").toList, business_name_norm := ("cafe a").toList,
    postcode_norm := ("SW1A1AA").toList, lat := some 0, lng := some 0 }

/-- Concrete Google place at the same point as `fhrs00`. -/
noncomputable def place00 : PlaceRow :=
  { place_id := ("p1").toList, latitude := some 0, longitude := some 0,
    name_norm := ("cafe a").toList, address_norm := ("1 x street").toList }

/-- A token-sort-ratio oracle that rates every pair 100 (the value
`fuzz.token_sort_ratio` returns on identical strings). -/
noncomputable def tsr100 : Str → Str → ℝ := fun _ _ => 100

/-- A token-sort-ratio oracle that rates every pair 0. -/
noncomputable def tsr0 : Str → Str → ℝ := fun _ _ => 0

/-- The candidates that survive both the bounding window and the hard
distance re-check of `match_one_fhrs` — the pool the best-of selection
ranges over. -/
noncomputable def survivors (fhrs_row : FhrsRow) (places : List PlaceRow)
    (tsr : Str → Str → ℝ) : List PlaceRow :=
  (find_candidate_places fhrs_row places).filter (fun p => !tooFar fhrs_row tsr p)

end TestMatch

namespace MatchPy

/-- The FHRS records that survive every `continue` of `match_one_place`'s
loop — the pool its best-of selection ranges over. -/
noncomputable def mopSurvivors (plat plng : ℝ) (g_name_norm : Str)
    (simFn : Str → Str → ℝ) (fhrs_records : List FhrsRec) : List FhrsRec :=
  fhrs_records.filter (fun f => !mopSkip plat plng g_name_norm simFn f)

end MatchPy

section BestFold

variable {α γ S : Type}

/-- Both matching loops share one accumulation pattern: skip an element
when its skip condition holds, otherwise replace the best when the new
score is strictly greater. The fold either never updates (and the
accumulator passes through, with every surviving element scoring at most
the incoming score), or it ends on the first maximum among the surviving
elements: everything before the winner scores strictly less (or no more
than the incoming score), everything after scores no more than the
winner. -/
theorem bestFold_spec (skip : α → Bool) (mk : α → γ) (val : α → S) (σ : S → ℝ)
    (step : Option γ × S → α → Option γ × S)
    (hskip : ∀ acc a, skip a = true → step acc a = acc)
    (hupd : ∀ acc a, skip a = false →
      step acc a = if σ acc.2 < σ (val a) then (some (mk a), val a) else acc) :
    ∀ (l : List α) (acc₀ : Option γ × S),
      (l.foldl step acc₀ = acc₀ ∧
        ∀ q ∈ l.filter (fun a => !skip a), σ (val q) ≤ σ acc₀.2) ∨
      ∃ p l1 l2, l.foldl step acc₀ = (some (mk p), val p) ∧
        l.filter (fun a => !skip a) = l1 ++ p :: l2 ∧
        σ acc₀.2 < σ (val p) ∧
        (∀ q ∈ l1, σ (val q) ≤ σ acc₀.2 ∨ σ (val q) < σ (val p)) ∧
        (∀ q ∈ l2, σ (val q) ≤ σ (val p)) := by
  intro l
  induction l with
  | nil => intro acc₀; exact Or.inl ⟨rfl, by simp⟩
  | cons h t ih =>
    intro acc₀
    rw [List.foldl_cons]
    cases hsk : skip h with
    | true =>
      rw [hskip acc₀ h hsk]
      have hfil : (h :: t).filter (fun a => !skip a) =
          t.filter (fun a => !skip a) := by
        simp [List.filter_cons, hsk]
      rw [hfil]
      exact ih acc₀
    | false =>
      have hfil : (h :: t).filter (fun a => !skip a) =
          h :: t.filter (fun a => !skip a) := by
        simp [List.filter_cons, hsk]
      rw [hupd acc₀ h hsk, hfil]
      by_cases hlt : σ acc₀.2 < σ (val h)
      · rw [if_pos hlt]
        rcases ih (some (mk h), val h) with ⟨heq, hle⟩ | ⟨p, l1, l2, heq, hf, hgt, hl1, hl2⟩
        · refine Or.inr ⟨h, [], t.filter (fun a => !skip a), heq, rfl, hlt, ?_, ?_⟩
          · intro q hq; exact absurd hq (List.not_mem_nil q)
          · exact hle
        · refine Or.inr ⟨p, h :: l1, l2, heq, by simp [hf], lt_trans hlt hgt, ?_, hl2⟩
          intro q hq
          rcases List.mem_cons.mp hq with rfl | hq'
          · exact Or.inr hgt
          · rcases hl1 q hq' with hle' | hlt'
            · exact Or.inr (lt_of_le_of_lt hle' hgt)
            · exact Or.inr hlt'
      · rw [if_neg hlt]
        rcases ih acc₀ with ⟨heq, hle⟩ | ⟨p, l1, l2, heq, hf, hgt, hl1, hl2⟩
        · refine Or.inl ⟨heq, ?_⟩
          intro q hq
          rcases List.mem_cons.mp hq with rfl | hq'
          · exact le_of_not_lt hlt
          · exact hle q hq'
        · refine Or.inr ⟨p, h :: l1, l2, heq, by simp [hf], hgt, ?_, hl2⟩
          intro q hq
          rcases List.mem_cons.mp hq with rfl | hq'
          · exact Or.inl (le_of_not_lt hlt)
          · exact hl1 q hq'

end BestFold

namespace TestMatch

/-- `mofStep` passes the accumulator through on a too-far candidate. -/
lemma mofStep_skip (fhrs_row : FhrsRow) (tsr : Str → Str → ℝ)
    (acc : Option PlaceRow × ℝ × ℝ × Option ℝ) (p : PlaceRow)
    (h : tooFar fhrs_row tsr p = true) :
    mofStep fhrs_row tsr acc p = acc := by
  simp [mofStep, h]

/-- On a surviving candidate, `mofStep` is the strict best-score update. -/
lemma mofStep_upd (fhrs_row : FhrsRow) (tsr : Str → Str → ℝ)
    (acc : Option PlaceRow × ℝ × ℝ × Option ℝ) (p : PlaceRow)
    (h : tooFar fhrs_row tsr p = false) :
    mofStep fhrs_row tsr acc p =
      if acc.2.1 < (compute_match_score fhrs_row p tsr).1
      then (some p, compute_match_score fhrs_row p tsr) else acc := by
  simp [mofStep, h]

/-- A surviving candidate's computed distance, when present, is within the
hard cutoff. -/
lemma tooFar_false_dist (fhrs_row : FhrsRow) (tsr : Str → Str → ℝ)
    (p : PlaceRow) (h : tooFar fhrs_row tsr p = false) :
    ∀ d, (compute_match_score fhrs_row p tsr).2.2 = some d →
      d ≤ MAX_DISTANCE_METERS := by
  intro d hd
  unfold tooFar at h
  rw [hd] at h
  simpa using le_of_not_lt (by simpa using h)

/-- Candidate pruning never invents candidates. -/
lemma find_candidate_subset (fhrs_row : FhrsRow) (places : List PlaceRow) :
    ∀ q ∈ find_candidate_places fhrs_row places, q ∈ places := by
  intro q hq
  unfold find_candidate_places at hq
  rcases h1 : fhrs_row.lat with _ | lat <;> rcases h2 : fhrs_row.lng with _ | lng <;>
    rw [h1, h2] at hq
  · exact hq
  · exact hq
  · exact hq
  · exact List.mem_of_mem_filter hq

end TestMatch

namespace MatchPy

/-- `mopStep` passes the accumulator through on any skipped record. -/
lemma mopStep_skip (plat plng : ℝ) (g_name_norm : Str) (simFn : Str → Str → ℝ)
    (acc : Option (FhrsRec × ℝ × ℝ × ℝ) × ℝ) (f : FhrsRec)
    (h : mopSkip plat plng g_name_norm simFn f = true) :
    mopStep plat plng g_name_norm simFn acc f = acc := by
  obtain ⟨bn, la, lo⟩ := f
  rcases la with _ | flat <;> rcases lo with _ | flng
  · rfl
  · rfl
  · rfl
  · simp only [mopSkip, Bool.or_eq_true, decide_eq_true_eq] at h
    simp only [mopStep]
    split_ifs with c1 c2 c3 c4 <;> try rfl
    rcases h with (h | h) | h
    · exact absurd h c1
    · exact absurd h c2
    · exact absurd h c3

/-- On a surviving record, `mopStep` is the strict best-score update,
storing the record with its distance, similarity and score. -/
lemma mopStep_upd (plat plng : ℝ) (g_name_norm : Str) (simFn : Str → Str → ℝ)
    (acc : Option (FhrsRec × ℝ × ℝ × ℝ) × ℝ) (f : FhrsRec)
    (h : mopSkip plat plng g_name_norm simFn f = false) :
    mopStep plat plng g_name_norm simFn acc f =
      if acc.2 < mopScore plat plng g_name_norm simFn f
      then (some (f, mopDist plat plng f, mopSim g_name_norm simFn f,
        mopScore plat plng g_name_norm simFn f),
        mopScore plat plng g_name_norm simFn f)
      else acc := by
  obtain ⟨bn, la, lo⟩ := f
  rcases la with _ | flat <;> rcases lo with _ | flng
  · simp [mopSkip] at h
  · simp [mopSkip] at h
  · simp [mopSkip] at h
  · simp only [mopSkip, Bool.or_eq_false_iff, decide_eq_false_iff_not] at h
    obtain ⟨⟨hbox, hdist⟩, hsim⟩ := h
    simp only [mopStep, mopScore, mopSim, mopDist]
    rw [if_neg hbox, if_neg hdist, if_neg hsim]

/-- A surviving record has parsed coordinates. -/
lemma mopSkip_false_coords (plat plng : ℝ) (g_name_norm : Str)
    (simFn : Str → Str → ℝ) (f : FhrsRec)
    (h : mopSkip plat plng g_name_norm simFn f = false) :
    f.latitude.isSome ∧ f.longitude.isSome := by
  obtain ⟨bn, la, lo⟩ := f
  rcases la with _ | flat <;> rcases lo with _ | flng
  · simp [mopSkip] at h
  · simp [mopSkip] at h
  · simp [mopSkip] at h
  · exact ⟨rfl, rfl⟩

/-- A surviving record's name similarity is at least the floor. -/
lemma mopSkip_false_sim (plat plng : ℝ) (g_name_norm : Str)
    (simFn : Str → Str → ℝ) (f : FhrsRec)
    (h : mopSkip plat plng g_name_norm simFn f = false) :
    MIN_NAME_SIMILARITY ≤ mopSim g_name_norm simFn f := by
  obtain ⟨bn, la, lo⟩ := f
  rcases la with _ | flat <;> rcases lo with _ | flng
  · simp [mopSkip] at h
  · simp [mopSkip] at h
  · simp [mopSkip] at h
  · simp only [mopSkip, Bool.or_eq_false_iff, decide_eq_false_iff_not] at h
    exact le_of_not_lt (by simpa [mopSim] using h.2)

end MatchPy

namespace TestMatch

/-- Full case analysis of `match_one_fhrs`: either the pruned pool is
empty, or no surviving candidate ever beat the initial `-1` score, or the
result is decided by the first maximum `p` of the surviving candidates,
accepted exactly when its combined score reaches `MIN_MATCH_SCORE`. -/
lemma match_one_fhrs_characterization (fhrs_row : FhrsRow)
    (places : List PlaceRow) (tsr : Str → Str → ℝ) :
    (match_one_fhrs fhrs_row places tsr = (none, 0, 0, none) ∧
      find_candidate_places fhrs_row places = []) ∨
    (match_one_fhrs fhrs_row places tsr = (none, -1, 0, none) ∧
      ∀ q ∈ survivors fhrs_row places tsr,
        (compute_match_score fhrs_row q tsr).1 ≤ -1) ∨
    ∃ p l1 l2, survivors fhrs_row places tsr = l1 ++ p :: l2 ∧
      (∀ q ∈ l1, (compute_match_score fhrs_row q tsr).1 <
        (compute_match_score fhrs_row p tsr).1) ∧
      (∀ q ∈ survivors fhrs_row places tsr,
        (compute_match_score fhrs_row q tsr).1 ≤
          (compute_match_score fhrs_row p tsr).1) ∧
      (((compute_match_score fhrs_row p tsr).1 < MIN_MATCH_SCORE ∧
          match_one_fhrs fhrs_row places tsr =
            (none, compute_match_score fhrs_row p tsr)) ∨
        (MIN_MATCH_SCORE ≤ (compute_match_score fhrs_row p tsr).1 ∧
          match_one_fhrs fhrs_row places tsr =
            (some p, compute_match_score fhrs_row p tsr))) := by
  have hspec := bestFold_spec (tooFar fhrs_row tsr) id
    (fun p => compute_match_score fhrs_row p tsr) (fun s => s.1)
    (mofStep fhrs_row tsr)
    (fun acc a ha => mofStep_skip fhrs_row tsr acc a ha)
    (fun acc a ha => mofStep_upd fhrs_row tsr acc a ha)
    (find_candidate_places fhrs_row places) (none, -1, 0, none)
  by_cases hemp : (find_candidate_places fhrs_row places).isEmpty
  · refine Or.inl ⟨?_, List.isEmpty_iff.mp hemp⟩
    simp only [match_one_fhrs, hemp, if_true]
  · rcases hspec with ⟨heq, hle⟩ | ⟨p, l1, l2, heq, hfil, hgt, hl1, hl2⟩
    · refine Or.inr (Or.inl ⟨?_, ?_⟩)
      · simp only [match_one_fhrs, hemp, if_false, Bool.false_eq_true, heq]
        norm_num [MIN_MATCH_SCORE]
      · intro q hq
        exact hle q hq
    · simp only [id_eq] at heq
      have hfil' : survivors fhrs_row places tsr = l1 ++ p :: l2 := by
        unfold survivors; exact hfil
      have hl1' : ∀ q ∈ l1, (compute_match_score fhrs_row q tsr).1 <
          (compute_match_score fhrs_row p tsr).1 := by
        intro q hq
        rcases hl1 q hq with h' | h'
        · exact lt_of_le_of_lt h' hgt
        · exact h'
      refine Or.inr (Or.inr ⟨p, l1, l2, hfil', hl1', ?_, ?_⟩)
      · intro q hq
        rw [hfil'] at hq
        rcases List.mem_append.mp hq with hq' | hq'
        · exact le_of_lt (hl1' q hq')
        · rcases List.mem_cons.mp hq' with rfl | hq''
          · exact le_refl _
          · exact hl2 q hq''
      · by_cases hmin : (compute_match_score fhrs_row p tsr).1 < MIN_MATCH_SCORE
        · refine Or.inl ⟨hmin, ?_⟩
          simp only [match_one_fhrs, hemp, if_false, Bool.false_eq_true, heq]
          rw [if_pos hmin]
        · refine Or.inr ⟨le_of_not_lt hmin, ?_⟩
          simp only [match_one_fhrs, hemp, if_false, Bool.false_eq_true, heq]
          rw [if_neg hmin]

end TestMatch

namespace TestMatch

/-- Members of the surviving pool passed the hard distance re-check. -/
lemma mem_survivors_tooFar (fhrs_row : FhrsRow) (places : List PlaceRow)
    (tsr : Str → Str → ℝ) (p : PlaceRow)
    (h : p ∈ survivors fhrs_row places tsr) :
    tooFar fhrs_row tsr p = false := by
  unfold survivors at h
  simpa using List.of_mem_filter h

/-- Members of the surviving pool come from the candidate collection. -/
lemma mem_survivors_places (fhrs_row : FhrsRow) (places : List PlaceRow)
    (tsr : Str → Str → ℝ) (p : PlaceRow)
    (h : p ∈ survivors fhrs_row places tsr) : p ∈ places := by
  unfold survivors at h
  exact find_candidate_subset fhrs_row places p (List.mem_of_mem_filter h)

end TestMatch

/-- C3: the result of the best-match search has a non-null candidate iff
the returned combined score reaches `MIN_MATCH_SCORE` and the winning
candidate's distance, when computable, did not exceed
`MAX_DISTANCE_METERS`; in particular, when every candidate scores below
the floor, the candidate is null. -/
theorem C3_candidate_iff_floor (fhrs_row : TestMatch.FhrsRow)
    (places : List TestMatch.PlaceRow) (tsr : Str → Str → ℝ) :
    ((TestMatch.match_one_fhrs fhrs_row places tsr).1.isSome = true ↔
      TestMatch.MIN_MATCH_SCORE ≤
        (TestMatch.match_one_fhrs fhrs_row places tsr).2.1 ∧
      ∀ d, (TestMatch.match_one_fhrs fhrs_row places tsr).2.2.2 = some d →
        d ≤ TestMatch.MAX_DISTANCE_METERS) ∧
    ((∀ p ∈ places, (TestMatch.compute_match_score fhrs_row p tsr).1 <
        TestMatch.MIN_MATCH_SCORE) →
      (TestMatch.match_one_fhrs fhrs_row places tsr).1 = none) := by
  rcases TestMatch.match_one_fhrs_characterization fhrs_row places tsr with
    ⟨heq, _⟩ | ⟨heq, _⟩ | ⟨p, l1, l2, hfil, _, _, hacc⟩
  · rw [heq]
    constructor
    · constructor
      · intro h; simp at h
      · rintro ⟨h, _⟩; norm_num [TestMatch.MIN_MATCH_SCORE] at h
    · intro _; rfl
  · rw [heq]
    constructor
    · constructor
      · intro h; simp at h
      · rintro ⟨h, _⟩; norm_num [TestMatch.MIN_MATCH_SCORE] at h
    · intro _; rfl
  · have hp : p ∈ TestMatch.survivors fhrs_row places tsr := by
      rw [hfil]; exact List.mem_append_right _ (List.mem_cons_self p l2)
    rcases hacc with ⟨hlt, heq⟩ | ⟨hge, heq⟩
    · rw [heq]
      constructor
      · constructor
        · intro h; simp at h
        · rintro ⟨h, _⟩; exact absurd hlt (not_lt.mpr h)
      · intro _; rfl
    · rw [heq]
      constructor
      · constructor
        · intro _
          exact ⟨hge, TestMatch.tooFar_false_dist fhrs_row tsr p
            (TestMatch.mem_survivors_tooFar fhrs_row places tsr p hp)⟩
        · intro _; rfl
      · intro hall
        exact absurd (hall p (TestMatch.mem_survivors_places fhrs_row places tsr p hp))
          (not_lt.mpr hge)

/-- Witness for C3 at a concrete input: one candidate, an oracle scoring
every name pair 0, so every combined score is below the floor and the
returned candidate is null. -/
theorem C3_candidate_iff_floor_witness :
    (TestMatch.match_one_fhrs TestMatch.fhrsNC [TestMatch.place00]
      TestMatch.tsr0).1 = none := by
  refine (C3_candidate_iff_floor TestMatch.fhrsNC [TestMatch.place00]
    TestMatch.tsr0).2 ?_
  intro p hp
  rcases List.mem_singleton.mp hp with rfl
  norm_num [TestMatch.compute_match_score, TestMatch.fhrsNC, TestMatch.place00,
    TestMatch.tsr0, TestMatch.distance_component, TestMatch.postcode_signal,
    TestMatch.MIN_MATCH_SCORE]
  rw [if_neg (by decide), if_neg (by decide)]
  norm_num

/-- Swapping the endpoints negates the half-angle argument; the squared
sine is unchanged. -/
lemma sin_sq_radians_swap (x y : ℝ) :
    Real.sin (radians (x - y) / 2) ^ 2 = Real.sin (radians (y - x) / 2) ^ 2 := by
  rw [show radians (x - y) / 2 = -(radians (y - x) / 2) by unfold radians; ring,
    Real.sin_neg]
  ring

namespace TestMatch

/-- The asin-form haversine of a point with itself is zero. -/
lemma haversine_self (lat lon : ℝ) : haversine lat lon lat lon = 0 := by
  simp [haversine, radians]

/-- The asin-form haversine is symmetric in its two points. -/
lemma haversine_symm (lat1 lon1 lat2 lon2 : ℝ) :
    haversine lat1 lon1 lat2 lon2 = haversine lat2 lon2 lat1 lon1 := by
  simp only [haversine]
  rw [sin_sq_radians_swap lat2 lat1, sin_sq_radians_swap lon2 lon1,
    mul_comm (Real.cos (radians lat1))]

end TestMatch

namespace MatchPy

/-- The atan2-form haversine of a point with itself is zero. -/
lemma haversine_m_self (lat lon : ℝ) : haversine_m lat lon lat lon = 0 := by
  simp [haversine_m, radians, atan2]

/-- The atan2-form haversine is symmetric in its two points. -/
lemma haversine_m_symm (lat1 lon1 lat2 lon2 : ℝ) :
    haversine_m lat1 lon1 lat2 lon2 = haversine_m lat2 lon2 lat1 lon1 := by
  simp only [haversine_m]
  rw [sin_sq_radians_swap lat2 lat1, sin_sq_radians_swap lon2 lon1,
    mul_comm (Real.cos (radians lat1))]

/-- Members of the surviving pool were not skipped. -/
lemma mem_mopSurvivors_skip (plat plng : ℝ) (g_name_norm : Str)
    (simFn : Str → Str → ℝ) (fhrs_records : List FhrsRec) (f : FhrsRec)
    (h : f ∈ mopSurvivors plat plng g_name_norm simFn fhrs_records) :
    mopSkip plat plng g_name_norm simFn f = false := by
  unfold mopSurvivors at h
  simpa using List.of_mem_filter h

/-- Full case analysis of `match_one_place` for a probe with parsed
coordinates: either no surviving record beats the initial `-1` score and
the result is `none`, or the result is the first maximum of the surviving
records, together with its distance, similarity and combined score. -/
lemma match_one_place_characterization (place : GoogleRow)
    (fhrs_records : List FhrsRec) (simFn : Str → Str → ℝ) (plat plng : ℝ)
    (hla : place.latitude = some plat) (hlo : place.longitude = some plng) :
    (match_one_place place fhrs_records simFn = none ∧
      ∀ q ∈ mopSurvivors plat plng (normalize_name place.name) simFn fhrs_records,
        mopScore plat plng (normalize_name place.name) simFn q ≤ -1) ∨
    ∃ p l1 l2,
      match_one_place place fhrs_records simFn =
        some (p, mopDist plat plng p,
          mopSim (normalize_name place.name) simFn p,
          mopScore plat plng (normalize_name place.name) simFn p) ∧
      mopSurvivors plat plng (normalize_name place.name) simFn fhrs_records =
        l1 ++ p :: l2 ∧
      (-1 : ℝ) < mopScore plat plng (normalize_name place.name) simFn p ∧
      (∀ q ∈ l1, mopScore plat plng (normalize_name place.name) simFn q <
        mopScore plat plng (normalize_name place.name) simFn p) ∧
      (∀ q ∈ mopSurvivors plat plng (normalize_name place.name) simFn fhrs_records,
        mopScore plat plng (normalize_name place.name) simFn q ≤
          mopScore plat plng (normalize_name place.name) simFn p) := by
  have hres : match_one_place place fhrs_records simFn =
      (fhrs_records.foldl
        (mopStep plat plng (normalize_name place.name) simFn) (none, -1)).1 := by
    unfold match_one_place
    rw [hla, hlo]
  have hspec := bestFold_spec
    (mopSkip plat plng (normalize_name place.name) simFn)
    (fun f => (f, mopDist plat plng f,
      mopSim (normalize_name place.name) simFn f,
      mopScore plat plng (normalize_name place.name) simFn f))
    (mopScore plat plng (normalize_name place.name) simFn) (fun s => s)
    (mopStep plat plng (normalize_name place.name) simFn)
    (fun acc a ha => mopStep_skip plat plng (normalize_name place.name) simFn acc a ha)
    (fun acc a ha => mopStep_upd plat plng (normalize_name place.name) simFn acc a ha)
    fhrs_records (none, -1)
  rcases hspec with ⟨heq, hle⟩ | ⟨p, l1, l2, heq, hfil, hgt, hl1, hl2⟩
  · refine Or.inl ⟨?_, ?_⟩
    · rw [hres, heq]
    · intro q hq
      unfold mopSurvivors at hq
      exact hle q hq
  · have hfil' : mopSurvivors plat plng (normalize_name place.name) simFn
        fhrs_records = l1 ++ p :: l2 := by
      unfold mopSurvivors; exact hfil
    refine Or.inr ⟨p, l1, l2, ?_, hfil', hgt, ?_, ?_⟩
    · rw [hres, heq]
    · intro q hq
      rcases hl1 q hq with h' | h'
      · exact lt_of_le_of_lt h' hgt
      · exact h'
    · intro q hq
      rw [hfil'] at hq
      rcases List.mem_append.mp hq with hq' | hq'
      · rcases hl1 q hq' with h' | h'
        · exact le_of_lt (lt_of_le_of_lt h' hgt)
        · exact le_of_lt h'
      · rcases List.mem_cons.mp hq' with rfl | hq''
        · exact le_refl _
        · exact hl2 q hq''

end MatchPy

namespace TestMatch

/-- The concrete place at the probe's own location passes the window. -/
lemma inWindow_place00 : inWindow 0 0 place00 = true := by
  simp only [inWindow, place00, decide_eq_true_eq]
  norm_num [LAT_DEG_WINDOW, LNG_DEG_WINDOW]

/-- Candidate pruning keeps the concrete co-located place. -/
lemma find_candidate_places_run :
    find_candidate_places fhrs00 [place00] = [place00] := by
  simp [find_candidate_places, fhrs00, inWindow_place00]

/-- The concrete score of the co-located, identically-named pair: name
1.0, distance 0 (score 1.0), no postcode corroboration. -/
lemma compute_match_score_run :
    compute_match_score fhrs00 place00 tsr100 = (0.9, 100, some 0) := by
  simp only [compute_match_score, fhrs00, place00, tsr100, haversine_self]
  rw [show distance_component (some 0) = 1 by
    simp only [distance_component]; norm_num]
  rw [show postcode_signal (("SW1A1AA").toList) (("1 x street").toList) = 0 by
    simp only [postcode_signal]
    rw [if_neg (by decide), if_neg (by decide)]]
  norm_num

/-- The concrete co-located candidate is not too far. -/
lemma tooFar_run : tooFar fhrs00 tsr100 place00 = false := by
  simp only [tooFar, compute_match_score_run]
  norm_num [MAX_DISTANCE_METERS]

/-- The full concrete run of `match_one_fhrs`: probe and single candidate
at the same point with identical names; the candidate is returned with
combined score 0.9 and distance 0. -/
lemma match_one_fhrs_run :
    match_one_fhrs fhrs00 [place00] tsr100 = (some place00, 0.9, 100, some 0) := by
  simp only [match_one_fhrs, find_candidate_places_run]
  rw [show ([place00].isEmpty) = false by rfl]
  simp only [Bool.false_eq_true, if_false, List.foldl_cons, List.foldl_nil]
  rw [mofStep_upd fhrs00 tsr100 (none, -1, 0, none) place00 tooFar_run,
    compute_match_score_run]
  norm_num [MIN_MATCH_SCORE]

end TestMatch

namespace MatchPy

/-- The concrete co-located record passes every skip condition. -/
lemma mopSkip_run (g : Str) : mopSkip 0 0 g simConst1 fhrs0 = false := by
  simp only [mopSkip, fhrs0, simConst1, haversine_m_self,
    Bool.or_eq_false_iff, decide_eq_false_iff_not]
  norm_num [max_deg, MAX_DISTANCE_METERS, MIN_NAME_SIMILARITY]

/-- The concrete co-located record scores `1 + 1 = 2`. -/
lemma mopScore_run (g : Str) : mopScore 0 0 g simConst1 fhrs0 = 2 := by
  simp only [mopScore, mopSim, mopDist, fhrs0, simConst1, haversine_m_self]
  norm_num [MAX_DISTANCE_METERS]

/-- The full concrete run of `match_one_place`: probe and single FHRS
record at the same point with similarity 1; the record is returned with
distance 0, similarity 1 and score 2. -/
lemma match_one_place_run :
    match_one_place probe0 [fhrs0] simConst1 = some (fhrs0, 0, 1, 2) := by
  have hres : match_one_place probe0 [fhrs0] simConst1 =
      ([fhrs0].foldl
        (mopStep 0 0 (normalize_name probe0.name) simConst1) (none, -1)).1 := by
    unfold match_one_place
    rw [show probe0.latitude = some 0 from rfl,
      show probe0.longitude = some 0 from rfl]
  rw [hres]
  simp only [List.foldl_cons, List.foldl_nil]
  rw [mopStep_upd 0 0 (normalize_name probe0.name) simConst1 (none, -1) fhrs0
    (mopSkip_run _), mopScore_run]
  rw [if_pos (show ((none : Option (FhrsRec × ℝ × ℝ × ℝ)), (-1 : ℝ)).2 < 2 by norm_num)]
  simp only [mopDist, mopSim, fhrs0, simConst1, haversine_m_self]

end MatchPy

namespace TestMatch

/-- A place kept by the bounding window has parsed coordinates. -/
lemma inWindow_coords (lat lng : ℝ) (p : PlaceRow)
    (h : inWindow lat lng p = true) :
    p.latitude.isSome = true ∧ p.longitude.isSome = true := by
  obtain ⟨pid, pla, plo, nn, an⟩ := p
  rcases pla with _ | a <;> rcases plo with _ | b <;>
    simp_all [inWindow]

/-- When the probe has coordinates, every pruned candidate passed the
bounding window. -/
lemma mem_candidates_inWindow (fhrs_row : FhrsRow) (places : List PlaceRow)
    (lat lng : ℝ) (h1 : fhrs_row.lat = some lat) (h2 : fhrs_row.lng = some lng)
    (p : PlaceRow) (hp : p ∈ find_candidate_places fhrs_row places) :
    inWindow lat lng p = true := by
  unfold find_candidate_places at hp
  rw [h1, h2] at hp
  exact List.of_mem_filter hp

end TestMatch

/-- C7: whenever the best-match search returns a candidate, that candidate
is a surviving candidate of maximal combined score, and every surviving
candidate encountered before it scores strictly less — the first-encountered
maximum wins, in both matching variants. -/
theorem C7_first_max_selection :
    (∀ (fhrs_row : TestMatch.FhrsRow) (places : List TestMatch.PlaceRow)
      (tsr : Str → Str → ℝ) (p : TestMatch.PlaceRow),
      (TestMatch.match_one_fhrs fhrs_row places tsr).1 = some p →
      ∃ l1 l2, TestMatch.survivors fhrs_row places tsr = l1 ++ p :: l2 ∧
        (∀ q ∈ l1, (TestMatch.compute_match_score fhrs_row q tsr).1 <
          (TestMatch.compute_match_score fhrs_row p tsr).1) ∧
        (∀ q ∈ TestMatch.survivors fhrs_row places tsr,
          (TestMatch.compute_match_score fhrs_row q tsr).1 ≤
            (TestMatch.compute_match_score fhrs_row p tsr).1)) ∧
    (∀ (place : MatchPy.GoogleRow) (recs : List MatchPy.FhrsRec)
      (simFn : Str → Str → ℝ) (plat plng : ℝ)
      (v : MatchPy.FhrsRec × ℝ × ℝ × ℝ),
      place.latitude = some plat → place.longitude = some plng →
      MatchPy.match_one_place place recs simFn = some v →
      ∃ p l1 l2,
        v = (p, MatchPy.mopDist plat plng p,
          MatchPy.mopSim (MatchPy.normalize_name place.name) simFn p,
          MatchPy.mopScore plat plng (MatchPy.normalize_name place.name) simFn p) ∧
        MatchPy.mopSurvivors plat plng (MatchPy.normalize_name place.name)
          simFn recs = l1 ++ p :: l2 ∧
        (∀ q ∈ l1, MatchPy.mopScore plat plng (MatchPy.normalize_name place.name)
          simFn q <
          MatchPy.mopScore plat plng (MatchPy.normalize_name place.name) simFn p) ∧
        (∀ q ∈ MatchPy.mopSurvivors plat plng (MatchPy.normalize_name place.name)
          simFn recs,
          MatchPy.mopScore plat plng (MatchPy.normalize_name place.name) simFn q ≤
            MatchPy.mopScore plat plng (MatchPy.normalize_name place.name) simFn p)) := by
  constructor
  · intro fhrs_row places tsr p h
    rcases TestMatch.match_one_fhrs_characterization fhrs_row places tsr with
      ⟨heq, _⟩ | ⟨heq, _⟩ | ⟨p0, l1, l2, hfil, hl1, hmax, hacc⟩
    · rw [heq] at h; simp at h
    · rw [heq] at h; simp at h
    · rcases hacc with ⟨_, heq⟩ | ⟨_, heq⟩
      · rw [heq] at h; simp at h
      · rw [heq] at h
        obtain rfl : p0 = p := Option.some.inj h
        exact ⟨l1, l2, hfil, hl1, hmax⟩
  · intro place recs simFn plat plng v hla hlo h
    rcases MatchPy.match_one_place_characterization place recs simFn plat plng
      hla hlo with ⟨heq, _⟩ | ⟨p, l1, l2, heq, hfil, _, hl1, hmax⟩
    · rw [heq] at h; simp at h
    · rw [heq] at h
      exact ⟨p, l1, l2, (Option.some.inj h).symm, hfil, hl1, hmax⟩

/-- Witness for C7: both variants run on one co-located candidate, which
is returned as the (trivial) first maximum. -/
theorem C7_first_max_selection_witness :
    (∃ l1 l2, TestMatch.survivors TestMatch.fhrs00 [TestMatch.place00]
        TestMatch.tsr100 = l1 ++ TestMatch.place00 :: l2 ∧
      (∀ q ∈ l1, (TestMatch.compute_match_score TestMatch.fhrs00 q
        TestMatch.tsr100).1 <
        (TestMatch.compute_match_score TestMatch.fhrs00 TestMatch.place00
          TestMatch.tsr100).1) ∧
      (∀ q ∈ TestMatch.survivors TestMatch.fhrs00 [TestMatch.place00]
        TestMatch.tsr100,
        (TestMatch.compute_match_score TestMatch.fhrs00 q TestMatch.tsr100).1 ≤
          (TestMatch.compute_match_score TestMatch.fhrs00 TestMatch.place00
            TestMatch.tsr100).1)) ∧
    (∃ p l1 l2,
      ((MatchPy.fhrs0, (0 : ℝ), (1 : ℝ), (2 : ℝ)) =
        (p, MatchPy.mopDist 0 0 p,
          MatchPy.mopSim (MatchPy.normalize_name MatchPy.probe0.name)
            MatchPy.simConst1 p,
          MatchPy.mopScore 0 0 (MatchPy.normalize_name MatchPy.probe0.name)
            MatchPy.simConst1 p)) ∧
      MatchPy.mopSurvivors 0 0 (MatchPy.normalize_name MatchPy.probe0.name)
        MatchPy.simConst1 [MatchPy.fhrs0] = l1 ++ p :: l2 ∧
      (∀ q ∈ l1, MatchPy.mopScore 0 0
        (MatchPy.normalize_name MatchPy.probe0.name) MatchPy.simConst1 q <
        MatchPy.mopScore 0 0 (MatchPy.normalize_name MatchPy.probe0.name)
          MatchPy.simConst1 p) ∧
      (∀ q ∈ MatchPy.mopSurvivors 0 0
        (MatchPy.normalize_name MatchPy.probe0.name) MatchPy.simConst1
        [MatchPy.fhrs0],
        MatchPy.mopScore 0 0 (MatchPy.normalize_name MatchPy.probe0.name)
          MatchPy.simConst1 q ≤
          MatchPy.mopScore 0 0 (MatchPy.normalize_name MatchPy.probe0.name)
            MatchPy.simConst1 p)) :=
  ⟨C7_first_max_selection.1 TestMatch.fhrs00 [TestMatch.place00]
      TestMatch.tsr100 TestMatch.place00
      (by rw [TestMatch.match_one_fhrs_run]),
    C7_first_max_selection.2 MatchPy.probe0 [MatchPy.fhrs0] MatchPy.simConst1
      0 0 (MatchPy.fhrs0, 0, 1, 2) rfl rfl
      (by rw [MatchPy.match_one_place_run])⟩

/-- C9: every match returned by `match_one_place` carries a name
similarity of at least `MIN_NAME_SIMILARITY` (0.70) between the normalized
probe and candidate names; a candidate below this floor is never
returned. -/
theorem C9_name_similarity_floor (place : MatchPy.GoogleRow)
    (recs : List MatchPy.FhrsRec) (simFn : Str → Str → ℝ)
    (f : MatchPy.FhrsRec) (d s sc : ℝ)
    (h : MatchPy.match_one_place place recs simFn = some (f, d, s, sc)) :
    MatchPy.MIN_NAME_SIMILARITY ≤ s ∧
    s = simFn (MatchPy.normalize_name place.name)
      (MatchPy.normalize_name f.business_name) := by
  rcases hla : place.latitude with _ | plat
  · unfold MatchPy.match_one_place at h
    rw [hla] at h
    simp at h
  rcases hlo : place.longitude with _ | plng
  · unfold MatchPy.match_one_place at h
    rw [hla, hlo] at h
    simp at h
  rcases MatchPy.match_one_place_characterization place recs simFn plat plng
    hla hlo with ⟨heq, _⟩ | ⟨p, l1, l2, heq, hfil, _, _, _⟩
  · rw [heq] at h; simp at h
  · rw [heq] at h
    have hv := Option.some.inj h
    obtain ⟨rfl, -, hs, -⟩ :
        p = f ∧ MatchPy.mopDist plat plng p = d ∧
        MatchPy.mopSim (MatchPy.normalize_name place.name) simFn p = s ∧
        MatchPy.mopScore plat plng (MatchPy.normalize_name place.name)
          simFn p = sc := by
      simpa [Prod.ext_iff] using hv
    have hp : p ∈ MatchPy.mopSurvivors plat plng
        (MatchPy.normalize_name place.name) simFn recs := by
      rw [hfil]; exact List.mem_append_right _ (List.mem_cons_self p l2)
    have hskip := MatchPy.mem_mopSurvivors_skip plat plng
      (MatchPy.normalize_name place.name) simFn recs p hp
    refine ⟨?_, ?_⟩
    · rw [← hs]
      exact MatchPy.mopSkip_false_sim plat plng
        (MatchPy.normalize_name place.name) simFn p hskip
    · rw [← hs]
      rfl

/-- Witness for C9 at the concrete co-located run: the returned similarity
is 1 ≥ 0.70 and equals the oracle on the normalized names. -/
theorem C9_name_similarity_floor_witness :
    MatchPy.MIN_NAME_SIMILARITY ≤ 1 ∧
    (1 : ℝ) = MatchPy.simConst1 (MatchPy.normalize_name MatchPy.probe0.name)
      (MatchPy.normalize_name MatchPy.fhrs0.business_name) :=
  C9_name_similarity_floor MatchPy.probe0 [MatchPy.fhrs0] MatchPy.simConst1
    MatchPy.fhrs0 0 1 2 MatchPy.match_one_place_run

/-- C10: when the probe has parsed coordinates, a candidate with a missing
or unparseable coordinate is never returned as the match, in either
variant — such candidates are dropped before scoring. -/
theorem C10_coordinateless_candidates_dropped :
    (∀ (place : MatchPy.GoogleRow) (recs : List MatchPy.FhrsRec)
      (simFn : Str → Str → ℝ) (f : MatchPy.FhrsRec) (d s sc : ℝ),
      MatchPy.match_one_place place recs simFn = some (f, d, s, sc) →
      f.latitude.isSome = true ∧ f.longitude.isSome = true) ∧
    (∀ (fhrs_row : TestMatch.FhrsRow) (places : List TestMatch.PlaceRow)
      (tsr : Str → Str → ℝ) (lat lng : ℝ) (p : TestMatch.PlaceRow),
      fhrs_row.lat = some lat → fhrs_row.lng = some lng →
      (TestMatch.match_one_fhrs fhrs_row places tsr).1 = some p →
      p.latitude.isSome = true ∧ p.longitude.isSome = true) := by
  constructor
  · intro place recs simFn f d s sc h
    rcases hla : place.latitude with _ | plat
    · unfold MatchPy.match_one_place at h
      rw [hla] at h
      simp at h
    rcases hlo : place.longitude with _ | plng
    · unfold MatchPy.match_one_place at h
      rw [hla, hlo] at h
      simp at h
    rcases MatchPy.match_one_place_characterization place recs simFn plat plng
      hla hlo with ⟨heq, _⟩ | ⟨p, l1, l2, heq, hfil, _, _, _⟩
    · rw [heq] at h; simp at h
    · rw [heq] at h
      have hv := Option.some.inj h
      obtain ⟨rfl, -⟩ : p = f ∧ MatchPy.mopDist plat plng p = d ∧
          MatchPy.mopSim (MatchPy.normalize_name place.name) simFn p = s ∧
          MatchPy.mopScore plat plng (MatchPy.normalize_name place.name)
            simFn p = sc := by
        simpa [Prod.ext_iff] using hv
      have hp : p ∈ MatchPy.mopSurvivors plat plng
          (MatchPy.normalize_name place.name) simFn recs := by
        rw [hfil]; exact List.mem_append_right _ (List.mem_cons_self p l2)
      exact MatchPy.mopSkip_false_coords plat plng
        (MatchPy.normalize_name place.name) simFn p
        (MatchPy.mem_mopSurvivors_skip plat plng
          (MatchPy.normalize_name place.name) simFn recs p hp)
  · intro fhrs_row places tsr lat lng p h1 h2 h
    rcases TestMatch.match_one_fhrs_characterization fhrs_row places tsr with
      ⟨heq, _⟩ | ⟨heq, _⟩ | ⟨p0, l1, l2, hfil, _, _, hacc⟩
    · rw [heq] at h; simp at h
    · rw [heq] at h; simp at h
    · rcases hacc with ⟨_, heq⟩ | ⟨_, heq⟩
      · rw [heq] at h; simp at h
      · rw [heq] at h
        obtain rfl : p0 = p := Option.some.inj h
        have hp : p0 ∈ TestMatch.survivors fhrs_row places tsr := by
          rw [hfil]; exact List.mem_append_right _ (List.mem_cons_self p0 l2)
        have hc : p0 ∈ TestMatch.find_candidate_places fhrs_row places := by
          unfold TestMatch.survivors at hp
          exact List.mem_of_mem_filter hp
        exact TestMatch.inWindow_coords lat lng p0
          (TestMatch.mem_candidates_inWindow fhrs_row places lat lng h1 h2 p0 hc)

/-- Witness for C10: both concrete runs return candidates whose
coordinates are present. -/
theorem C10_coordinateless_candidates_dropped_witness :
    (MatchPy.fhrs0.latitude.isSome = true ∧
      MatchPy.fhrs0.longitude.isSome = true) ∧
    (TestMatch.place00.latitude.isSome = true ∧
      TestMatch.place00.longitude.isSome = true) :=
  ⟨C10_coordinateless_candidates_dropped.1 MatchPy.probe0 [MatchPy.fhrs0]
      MatchPy.simConst1 MatchPy.fhrs0 0 1 2 MatchPy.match_one_place_run,
    C10_coordinateless_candidates_dropped.2 TestMatch.fhrs00
      [TestMatch.place00] TestMatch.tsr100 0 0 TestMatch.place00 rfl rfl
      (by rw [TestMatch.match_one_fhrs_run])⟩

/-- C8: both haversine variants are symmetric in their two points and are
zero on a point paired with itself. -/
theorem C8_haversine_symmetric_and_zero_on_diagonal :
    (∀ lat1 lon1 lat2 lon2 : ℝ, TestMatch.haversine lat1 lon1 lat2 lon2 =
      TestMatch.haversine lat2 lon2 lat1 lon1) ∧
    (∀ lat lon : ℝ, TestMatch.haversine lat lon lat lon = 0) ∧
    (∀ lat1 lon1 lat2 lon2 : ℝ, MatchPy.haversine_m lat1 lon1 lat2 lon2 =
      MatchPy.haversine_m lat2 lon2 lat1 lon1) ∧
    (∀ lat lon : ℝ, MatchPy.haversine_m lat lon lat lon = 0) :=
  ⟨TestMatch.haversine_symm, TestMatch.haversine_self,
    MatchPy.haversine_m_symm, MatchPy.haversine_m_self⟩

namespace TestMatch

/-- The bucketed distance score always lies in `[0, 1]`. -/
lemma distance_component_range (o : Option ℝ) :
    0 ≤ distance_component o ∧ distance_component o ≤ 1 := by
  rcases o with _ | d
  · simp [distance_component]
  · simp only [distance_component]
    split_ifs <;> norm_num

end TestMatch

/-- C5: the distance score is exactly 1.0 up to 50 m, 0.7 up to 150 m,
0.4 up to 300 m, 0.2 up to `MAX_DISTANCE_METERS`, 0.0 beyond it, and 0.0
when the distance is undefined because a coordinate is missing. -/
theorem C5_distance_score_buckets :
    TestMatch.distance_component none = 0 ∧
    (∀ d : ℝ,
      (d ≤ 50 → TestMatch.distance_component (some d) = 1) ∧
      (50 < d → d ≤ 150 → TestMatch.distance_component (some d) = 0.7) ∧
      (150 < d → d ≤ 300 → TestMatch.distance_component (some d) = 0.4) ∧
      (300 < d → d ≤ TestMatch.MAX_DISTANCE_METERS →
        TestMatch.distance_component (some d) = 0.2) ∧
      (TestMatch.MAX_DISTANCE_METERS < d →
        TestMatch.distance_component (some d) = 0)) ∧
    (∀ (fhrs_row : TestMatch.FhrsRow) (p : TestMatch.PlaceRow)
      (tsr : Str → Str → ℝ),
      (fhrs_row.lat = none ∨ fhrs_row.lng = none ∨ p.latitude = none ∨
        p.longitude = none) →
      (TestMatch.compute_match_score fhrs_row p tsr).2.2 = none) := by
  refine ⟨rfl, ?_, ?_⟩
  · intro d
    refine ⟨?_, ?_, ?_, ?_, ?_⟩
    · intro h1
      simp only [TestMatch.distance_component]
      rw [if_pos h1]
    · intro h1 h2
      simp only [TestMatch.distance_component]
      rw [if_neg (not_le.mpr h1), if_pos h2]
    · intro h1 h2
      simp only [TestMatch.distance_component]
      rw [if_neg (by linarith), if_neg (not_le.mpr h1), if_pos h2]
    · intro h1 h2
      simp only [TestMatch.distance_component]
      rw [if_neg (by linarith), if_neg (by linarith), if_neg (not_le.mpr h1),
        if_pos h2]
    · intro h1
      have h500 : (500 : ℝ) < d := by
        simpa [TestMatch.MAX_DISTANCE_METERS] using h1
      simp only [TestMatch.distance_component, TestMatch.MAX_DISTANCE_METERS]
      rw [if_neg (by linarith), if_neg (by linarith), if_neg (by linarith),
        if_neg (not_le.mpr h500)]
  · intro fhrs_row p tsr h
    obtain ⟨i1, bn, pc, la, ln⟩ := fhrs_row
    obtain ⟨i2, pla, plo, nn, an⟩ := p
    simp only [TestMatch.compute_match_score]
    rcases la with _ | a <;> rcases ln with _ | b <;>
      rcases pla with _ | c <;> rcases plo with _ | e <;>
      first
        | rfl
        | (rcases h with h | h | h | h <;> simp at h)

/-- Witness for C5: one concrete distance per bucket, plus a probe with a
missing coordinate whose computed distance is `none`. -/
theorem C5_distance_score_buckets_witness :
    TestMatch.distance_component (some 30) = 1 ∧
    TestMatch.distance_component (some 100) = 0.7 ∧
    TestMatch.distance_component (some 200) = 0.4 ∧
    TestMatch.distance_component (some 400) = 0.2 ∧
    TestMatch.distance_component (some 600) = 0 ∧
    (TestMatch.compute_match_score TestMatch.fhrsNC TestMatch.place00
      TestMatch.tsr0).2.2 = none :=
  ⟨(C5_distance_score_buckets.2.1 30).1 (by norm_num),
    (C5_distance_score_buckets.2.1 100).2.1 (by norm_num) (by norm_num),
    (C5_distance_score_buckets.2.1 200).2.2.1 (by norm_num) (by norm_num),
    (C5_distance_score_buckets.2.1 400).2.2.2.1 (by norm_num)
      (by norm_num [TestMatch.MAX_DISTANCE_METERS]),
    (C5_distance_score_buckets.2.1 600).2.2.2.2
      (by norm_num [TestMatch.MAX_DISTANCE_METERS]),
    C5_distance_score_buckets.2.2 TestMatch.fhrsNC TestMatch.place00
      TestMatch.tsr0 (Or.inl rfl)⟩

/-- C6: the combined score is exactly the weighted sum
`0.7 * name + 0.2 * distance + 0.1 * postcode`; when the external ratio is
in `[0, 100]` the name score is in `[0, 1]`, the distance score is always
in `[0, 1]`, and the postcode signal is binary: 1.0 exactly when both
sides are non-empty and the normalized postcode occurs literally in the
space-stripped, uppercased normalized address, else 0.0. -/
theorem C6_combined_score_weighted_sum (fhrs_row : TestMatch.FhrsRow)
    (place : TestMatch.PlaceRow) (tsr : Str → Str → ℝ)
    (htsr : ∀ a b, 0 ≤ tsr a b ∧ tsr a b ≤ 100) :
    (TestMatch.compute_match_score fhrs_row place tsr).1 =
      0.7 * (tsr fhrs_row.business_name_norm place.name_norm / 100) +
      0.2 * TestMatch.distance_component
        (TestMatch.compute_match_score fhrs_row place tsr).2.2 +
      0.1 * TestMatch.postcode_signal fhrs_row.postcode_norm
        place.address_norm ∧
    0 ≤ tsr fhrs_row.business_name_norm place.name_norm / 100 ∧
    tsr fhrs_row.business_name_norm place.name_norm / 100 ≤ 1 ∧
    0 ≤ TestMatch.distance_component
      (TestMatch.compute_match_score fhrs_row place tsr).2.2 ∧
    TestMatch.distance_component
      (TestMatch.compute_match_score fhrs_row place tsr).2.2 ≤ 1 ∧
    (TestMatch.postcode_signal fhrs_row.postcode_norm place.address_norm = 0 ∨
      TestMatch.postcode_signal fhrs_row.postcode_norm place.address_norm = 1) ∧
    (TestMatch.postcode_signal fhrs_row.postcode_norm place.address_norm = 1 ↔
      fhrs_row.postcode_norm ≠ [] ∧ place.address_norm ≠ [] ∧
      fhrs_row.postcode_norm <:+:
        ((place.address_norm.filter (fun c => c ≠ ' ')).map Char.toUpper)) := by
  obtain ⟨h0, h100⟩ := htsr fhrs_row.business_name_norm place.name_norm
  obtain ⟨hd0, hd1⟩ := TestMatch.distance_component_range
    (TestMatch.compute_match_score fhrs_row place tsr).2.2
  refine ⟨rfl, by positivity, by linarith, hd0, hd1, ?_, ?_⟩
  · simp only [TestMatch.postcode_signal]
    split_ifs <;> simp
  · simp only [TestMatch.postcode_signal]
    split_ifs with h1 h2
    · constructor
      · intro h; norm_num at h
      · rintro ⟨ha, hb, -⟩
        rcases h1 with h1 | h1
        · exact absurd h1 ha
        · exact absurd h1 hb
    · push_neg at h1
      exact ⟨fun _ => ⟨h1.1, h1.2, h2⟩, fun _ => rfl⟩
    · constructor
      · intro h; norm_num at h
      · rintro ⟨-, -, hc⟩
        exact absurd hc h2

/-- Witness for C6 at the concrete co-located pair with the constant-100
ratio oracle. -/
theorem C6_combined_score_weighted_sum_witness :
    (TestMatch.compute_match_score TestMatch.fhrs00 TestMatch.place00
      TestMatch.tsr100).1 =
      0.7 * (TestMatch.tsr100 TestMatch.fhrs00.business_name_norm
        TestMatch.place00.name_norm / 100) +
      0.2 * TestMatch.distance_component
        (TestMatch.compute_match_score TestMatch.fhrs00 TestMatch.place00
          TestMatch.tsr100).2.2 +
      0.1 * TestMatch.postcode_signal TestMatch.fhrs00.postcode_norm
        TestMatch.place00.address_norm ∧
    0 ≤ TestMatch.tsr100 TestMatch.fhrs00.business_name_norm
      TestMatch.place00.name_norm / 100 ∧
    TestMatch.tsr100 TestMatch.fhrs00.business_name_norm
      TestMatch.place00.name_norm / 100 ≤ 1 ∧
    0 ≤ TestMatch.distance_component
      (TestMatch.compute_match_score TestMatch.fhrs00 TestMatch.place00
        TestMatch.tsr100).2.2 ∧
    TestMatch.distance_component
      (TestMatch.compute_match_score TestMatch.fhrs00 TestMatch.place00
        TestMatch.tsr100).2.2 ≤ 1 ∧
    (TestMatch.postcode_signal TestMatch.fhrs00.postcode_norm
        TestMatch.place00.address_norm = 0 ∨
      TestMatch.postcode_signal TestMatch.fhrs00.postcode_norm
        TestMatch.place00.address_norm = 1) ∧
    (TestMatch.postcode_signal TestMatch.fhrs00.postcode_norm
        TestMatch.place00.address_norm = 1 ↔
      TestMatch.fhrs00.postcode_norm ≠ [] ∧
      TestMatch.place00.address_norm ≠ [] ∧
      TestMatch.fhrs00.postcode_norm <:+:
        ((TestMatch.place00.address_norm.filter (fun c => c ≠ ' ')).map
          Char.toUpper)) :=
  C6_combined_score_weighted_sum TestMatch.fhrs00 TestMatch.place00
    TestMatch.tsr100 (fun a b => by norm_num [TestMatch.tsr100])

/-- C2 counterexample: `match_one_place` returns `none` for a probe whose
latitude failed to parse, even when a candidate with similarity 1.0 is
available — the probe is not matched on the name signal. -/
theorem C2_missing_probe_coords_counterexample :
    MatchPy.match_one_place MatchPy.probeNoCoord [MatchPy.fhrs0]
      MatchPy.simConst1 = none ∧
    MatchPy.simConst1 (MatchPy.normalize_name MatchPy.probeNoCoord.name)
      (MatchPy.normalize_name MatchPy.fhrs0.business_name) = 1 :=
  ⟨rfl, rfl⟩

/-- C2 (amended): in the `match_one_fhrs` variant a probe with a missing
coordinate is still matched: the candidate pool is the whole collection,
every computed distance is `none`, and the combined score degenerates to
the name and postcode terms (distance score forced to 0). -/
theorem C2_missing_coords_matched_on_name (fhrs_row : TestMatch.FhrsRow)
    (places : List TestMatch.PlaceRow) (tsr : Str → Str → ℝ)
    (h : fhrs_row.lat = none ∨ fhrs_row.lng = none) :
    TestMatch.find_candidate_places fhrs_row places = places ∧
    ∀ p : TestMatch.PlaceRow,
      (TestMatch.compute_match_score fhrs_row p tsr).2.2 = none ∧
      (TestMatch.compute_match_score fhrs_row p tsr).1 =
        0.7 * (tsr fhrs_row.business_name_norm p.name_norm / 100) +
        0.1 * TestMatch.postcode_signal fhrs_row.postcode_norm
          p.address_norm := by
  obtain ⟨i1, bn, pc, la, ln⟩ := fhrs_row
  have hdist : ∀ p : TestMatch.PlaceRow,
      (TestMatch.compute_match_score ⟨i1, bn, pc, la, ln⟩ p tsr).2.2 = none := by
    intro p
    obtain ⟨i2, pla, plo, nn, an⟩ := p
    simp only [TestMatch.compute_match_score]
    rcases la with _ | a <;> rcases ln with _ | b <;>
      rcases pla with _ | c <;> rcases plo with _ | e <;>
      first
        | rfl
        | (rcases h with h | h <;> simp at h)
  refine ⟨?_, ?_⟩
  · simp only [TestMatch.find_candidate_places]
    rcases la with _ | a <;> rcases ln with _ | b <;>
      first
        | rfl
        | (rcases h with h | h <;> simp at h)
  · intro p
    refine ⟨hdist p, ?_⟩
    have : TestMatch.distance_component
        (TestMatch.compute_match_score ⟨i1, bn, pc, la, ln⟩ p tsr).2.2 = 0 := by
      rw [hdist p]; rfl
    have hsum : (TestMatch.compute_match_score ⟨i1, bn, pc, la, ln⟩ p tsr).1 =
        0.7 * (tsr bn p.name_norm / 100) +
        0.2 * TestMatch.distance_component
          (TestMatch.compute_match_score ⟨i1, bn, pc, la, ln⟩ p tsr).2.2 +
        0.1 * TestMatch.postcode_signal pc p.address_norm := rfl
    rw [hsum, this]
    ring

/-- Witness for the amended C2 at a concrete coordinate-less probe. -/
theorem C2_missing_coords_matched_on_name_witness :
    TestMatch.find_candidate_places TestMatch.fhrsNC [TestMatch.place00] =
      [TestMatch.place00] ∧
    (TestMatch.compute_match_score TestMatch.fhrsNC TestMatch.place00
      TestMatch.tsr100).2.2 = none ∧
    (TestMatch.compute_match_score TestMatch.fhrsNC TestMatch.place00
      TestMatch.tsr100).1 =
      0.7 * (TestMatch.tsr100 TestMatch.fhrsNC.business_name_norm
        TestMatch.place00.name_norm / 100) +
      0.1 * TestMatch.postcode_signal TestMatch.fhrsNC.postcode_norm
        TestMatch.place00.address_norm :=
  ⟨(C2_missing_coords_matched_on_name TestMatch.fhrsNC [TestMatch.place00]
      TestMatch.tsr100 (Or.inl rfl)).1,
    (C2_missing_coords_matched_on_name TestMatch.fhrsNC [TestMatch.place00]
      TestMatch.tsr100 (Or.inl rfl)).2 TestMatch.place00⟩

/-- For `0 ≤ y < 1`, the `atan2` the haversine feeds with `√(y²)` and
`√(1 - y²)` is exactly `arcsin y`. -/
lemma atan2_sqrt_eq_arcsin (y : ℝ) (hy0 : 0 ≤ y) (hy1 : y < 1) :
    atan2 (Real.sqrt (y ^ 2)) (Real.sqrt (1 - y ^ 2)) = Real.arcsin y := by
  have h1 : Real.sqrt (y ^ 2) = y := by
    rw [show y ^ 2 = y * y by ring]
    exact Real.sqrt_mul_self hy0
  have h2 : 0 < Real.sqrt (1 - y ^ 2) := Real.sqrt_pos.mpr (by nlinarith)
  rw [h1]
  unfold atan2
  rw [if_pos h2]
  exact (Real.arcsin_eq_arctan ⟨by linarith, hy1⟩).symm

/-- At latitude 60°, a point 0.002° of longitude to the east is within
the 120 m cutoff of `match.py`: the distance is about 111 m. -/
lemma haversine_m_60_le_cutoff :
    MatchPy.haversine_m 60 0 60 0.002 ≤ MatchPy.MAX_DISTANCE_METERS := by
  have hpi_pos := Real.pi_pos
  have hpi_lt : Real.pi < 3.141593 := Real.pi_lt_d6
  have hpi_gt : Real.pi > 3.141592 := Real.pi_gt_d6
  set s := Real.sin (Real.pi / 180000) with hs
  have hx_pos : 0 < Real.pi / 180000 := by positivity
  have hx_le_pi : Real.pi / 180000 ≤ Real.pi := by
    rw [div_le_iff₀ (by norm_num : (0:ℝ) < 180000)]
    nlinarith
  have hs_nonneg : 0 ≤ s := Real.sin_nonneg_of_nonneg_of_le_pi hx_pos.le hx_le_pi
  have hs_lt : s < Real.pi / 180000 := Real.sin_lt hx_pos
  have hs_le_one : s ≤ 1 := Real.sin_le_one _
  have ht_pos : (0:ℝ) < 60 / 6371000 := by norm_num
  have ht_le1 : (60:ℝ) / 6371000 ≤ 1 := by norm_num
  have hsin_t := Real.sin_gt_sub_cube ht_pos ht_le1
  have hkey : s / 2 ≤ Real.sin (60 / 6371000) := by
    have h1 : s / 2 < Real.pi / 360000 := by linarith
    have h2 : Real.pi / 360000 ≤ (3.141593 : ℝ) / 360000 := by linarith
    have h3 : (3.141593 : ℝ) / 360000 ≤
        60 / 6371000 - (60 / 6371000) ^ 3 / 4 := by norm_num
    linarith
  have harcsin : Real.arcsin (s / 2) ≤ 60 / 6371000 := by
    have hmono := Real.monotone_arcsin hkey
    rwa [Real.arcsin_sin (by linarith) (by nlinarith)] at hmono
  have hr1 : radians (60 - 60) = 0 := by norm_num [radians]
  have hr2 : radians 60 = Real.pi / 3 := by unfold radians; ring
  have hr3 : radians (0.002 - 0) / 2 = Real.pi / 180000 := by
    unfold radians; norm_num; ring
  have hy1 : s / 2 < 1 := by linarith
  have hy0 : 0 ≤ s / 2 := by linarith
  simp only [MatchPy.haversine_m, MatchPy.MAX_DISTANCE_METERS]
  rw [hr1, hr2, hr3]
  have hA : Real.sin (0 / 2) ^ 2 +
      Real.cos (Real.pi / 3) * Real.cos (Real.pi / 3) * s ^ 2 =
      (s / 2) ^ 2 := by
    rw [Real.cos_pi_div_three]
    norm_num [Real.sin_zero]
    ring
  rw [hA, atan2_sqrt_eq_arcsin (s / 2) hy0 hy1]
  linarith

/-- C1: the coarse degree window of `match_one_place` is unsound: it uses
the latitude-degree size `MAX_DISTANCE_METERS / 111000` for longitude as
well, without the cosine-of-latitude correction, so a candidate whose
exact haversine distance is within `MAX_DISTANCE_METERS` is excluded.
Concretely, at latitude 60° a candidate 0.002° of longitude away is about
111 m ≤ 120 m from the probe, yet `|Δlng| = 0.002 > max_deg ≈ 0.00108`
makes the bounding-box filter skip it and `match_one_place` returns no
match even for an identically-named candidate. -/
theorem C1_window_excludes_close_candidate :
    MatchPy.haversine_m 60 0 60 0.002 ≤ MatchPy.MAX_DISTANCE_METERS ∧
    |(0.002 : ℝ) - 0| > MatchPy.max_deg ∧
    MatchPy.match_one_place MatchPy.probe60 [MatchPy.fhrs60]
      MatchPy.simConst1 = none := by
  refine ⟨haversine_m_60_le_cutoff, ?_, ?_⟩
  · rw [sub_zero, abs_of_pos (by norm_num : (0:ℝ) < 0.002)]
    norm_num [MatchPy.max_deg, MatchPy.MAX_DISTANCE_METERS]
  · have hskip : MatchPy.mopSkip 60 0
        (MatchPy.normalize_name MatchPy.probe60.name) MatchPy.simConst1
        MatchPy.fhrs60 = true := by
      simp only [MatchPy.mopSkip, MatchPy.fhrs60, Bool.or_eq_true,
        decide_eq_true_eq]
      refine Or.inl (Or.inl (Or.inr ?_))
      rw [sub_zero, abs_of_pos (by norm_num : (0:ℝ) < 0.002)]
      norm_num [MatchPy.max_deg, MatchPy.MAX_DISTANCE_METERS]
    have hres : MatchPy.match_one_place MatchPy.probe60 [MatchPy.fhrs60]
        MatchPy.simConst1 =
        ([MatchPy.fhrs60].foldl
          (MatchPy.mopStep 60 0 (MatchPy.normalize_name MatchPy.probe60.name)
            MatchPy.simConst1) (none, -1)).1 := by
      unfold MatchPy.match_one_place
      rw [show MatchPy.probe60.latitude = some 60 from rfl,
        show MatchPy.probe60.longitude = some 0 from rfl]
    rw [hres]
    simp only [List.foldl_cons, List.foldl_nil]
    rw [MatchPy.mopStep_skip 60 0 (MatchPy.normalize_name MatchPy.probe60.name)
      MatchPy.simConst1 (none, -1) MatchPy.fhrs60 hskip]

/-- Character order is the order of the underlying scalar values. -/
lemma char_le_iff_toNat {a b : Char} : a ≤ b ↔ a.toNat ≤ b.toNat := Iff.rfl

/-- `Char.ofNat` of a valid scalar value round-trips through `toNat`. -/
lemma char_toNat_ofNat {n : Nat} (h : n.isValidChar) :
    (Char.ofNat n).toNat = n := by
  rw [Char.ofNat, dif_pos h]
  simp [Char.ofNatAux, Char.toNat, UInt32.toNat]

/-- A scalar value below the surrogate range is valid. -/
lemma isValidChar_of_lt {n : Nat} (h : n < 55296) : n.isValidChar := Or.inl h

/-- ASCII uppercasing leaves a character outside `a`-`z` unchanged. -/
lemma toUpper_of_not_lower {c : Char}
    (h : ¬(97 ≤ c.toNat ∧ c.toNat ≤ 122)) : Char.toUpper c = c := by
  simp only [Char.toUpper]
  rw [if_neg (by simpa [ge_iff_le] using h)]

/-- ASCII lowercasing leaves a character outside `A`-`Z` unchanged. -/
lemma toLower_of_not_upper {c : Char}
    (h : ¬(65 ≤ c.toNat ∧ c.toNat ≤ 90)) : Char.toLower c = c := by
  simp only [Char.toLower]
  rw [if_neg (by simpa [ge_iff_le] using h)]

/-- The scalar value of an uppercased character is never in `a`-`z`. -/
lemma toUpper_toNat_not_lower (c : Char) :
    ¬(97 ≤ (Char.toUpper c).toNat ∧ (Char.toUpper c).toNat ≤ 122) := by
  by_cases h : 97 ≤ c.toNat ∧ c.toNat ≤ 122
  · simp only [Char.toUpper]
    rw [if_pos (by simpa [ge_iff_le] using h)]
    rw [char_toNat_ofNat (isValidChar_of_lt (by omega))]
    omega
  · rw [toUpper_of_not_lower h]
    exact h

/-- The scalar value of a lowercased character is never in `A`-`Z`. -/
lemma toLower_toNat_not_upper (c : Char) :
    ¬(65 ≤ (Char.toLower c).toNat ∧ (Char.toLower c).toNat ≤ 90) := by
  by_cases h : 65 ≤ c.toNat ∧ c.toNat ≤ 90
  · simp only [Char.toLower]
    rw [if_pos (by simpa [ge_iff_le] using h)]
    rw [char_toNat_ofNat (isValidChar_of_lt (by omega))]
    omega
  · rw [toLower_of_not_upper h]
    exact h

/-- ASCII uppercasing is idempotent. -/
lemma toUpper_idem (c : Char) :
    Char.toUpper (Char.toUpper c) = Char.toUpper c :=
  toUpper_of_not_lower (toUpper_toNat_not_lower c)

/-- ASCII lowercasing is idempotent. -/
lemma toLower_idem (c : Char) :
    Char.toLower (Char.toLower c) = Char.toLower c :=
  toLower_of_not_upper (toLower_toNat_not_upper c)

/-- Uppercasing cannot produce a space from a non-space. -/
lemma toUpper_ne_space {c : Char} (h : c ≠ ' ') : Char.toUpper c ≠ ' ' := by
  by_cases hl : 97 ≤ c.toNat ∧ c.toNat ≤ 122
  · simp only [Char.toUpper]
    rw [if_pos (by simpa [ge_iff_le] using hl)]
    intro heq
    have := congrArg Char.toNat heq
    rw [char_toNat_ofNat (isValidChar_of_lt (by omega)),
      show (' ' : Char).toNat = 32 from rfl] at this
    omega
  · rw [toUpper_of_not_lower hl]
    exact h

namespace TestMatch

/-- `norm_postcode` is idempotent: the first pass leaves no space to
remove and no letter to uppercase. -/
theorem norm_postcode_idem (pc : Str) :
    norm_postcode (norm_postcode pc) = norm_postcode pc := by
  unfold norm_postcode
  have h1 : (((pc.filter (fun c => c ≠ ' ')).map Char.toUpper).filter
      (fun c => c ≠ ' ')) = (pc.filter (fun c => c ≠ ' ')).map Char.toUpper := by
    rw [List.filter_eq_self]
    intro a ha
    rcases List.mem_map.mp ha with ⟨b, hb, rfl⟩
    have hb' : b ≠ ' ' := by simpa using List.of_mem_filter hb
    simpa using toUpper_ne_space hb'
  rw [h1, List.map_map]
  exact List.map_congr_left fun a _ => toUpper_idem a

/-- Every word produced by `pySplit` is non-empty and whitespace-free. -/
lemma pySplit_words : ∀ (l : Str), ∀ w ∈ pySplit l,
    w ≠ [] ∧ ∀ ch ∈ w, isWS ch = false := by
  intro l
  induction l with
  | nil => intro w hw; simp [pySplit] at hw
  | cons c t ih =>
    cases t with
    | nil =>
      intro w hw
      by_cases hc : isWS c
      · simp [pySplit, hc] at hw
      · simp only [pySplit, hc, Bool.false_eq_true, if_false,
          List.mem_singleton] at hw
        subst hw
        refine ⟨by simp, ?_⟩
        intro ch hch
        rcases List.mem_singleton.mp hch with rfl
        simpa using hc
    | cons d rest =>
      intro w hw
      by_cases hc : isWS c
      · rw [show pySplit (c :: d :: rest) = pySplit (d :: rest) by
          simp [pySplit, hc]] at hw
        exact ih w hw
      · by_cases hd : isWS d
        · rw [show pySplit (c :: d :: rest) = [c] :: pySplit (d :: rest) by
            simp [pySplit, hc, hd]] at hw
          rcases List.mem_cons.mp hw with rfl | hw'
          · refine ⟨by simp, ?_⟩
            intro ch hch
            rcases List.mem_singleton.mp hch with rfl
            simpa using hc
          · exact ih w hw'
        · rcases hps : pySplit (d :: rest) with _ | ⟨w0, r0⟩
          · rw [show pySplit (c :: d :: rest) = [[c]] by
              simp [pySplit, hc, hd, hps]] at hw
            rcases List.mem_singleton.mp hw with rfl
            refine ⟨by simp, ?_⟩
            intro ch hch
            rcases List.mem_singleton.mp hch with rfl
            simpa using hc
          · rw [show pySplit (c :: d :: rest) = (c :: w0) :: r0 by
              simp [pySplit, hc, hd, hps]] at hw
            rcases List.mem_cons.mp hw with rfl | hw'
            · have h0 := ih w0 (by rw [hps]; exact List.mem_cons_self w0 r0)
              refine ⟨by simp, ?_⟩
              intro ch hch
              rcases List.mem_cons.mp hch with rfl | hch'
              · simpa using hc
              · exact h0.2 ch hch'
            · exact ih w (by rw [hps]; exact List.mem_cons_of_mem w0 hw')

/-- Characters of `pySplit`'s words come from the input. -/
lemma pySplit_mem_chars : ∀ (l : Str), ∀ w ∈ pySplit l, ∀ ch ∈ w, ch ∈ l := by
  intro l
  induction l with
  | nil => intro w hw; simp [pySplit] at hw
  | cons c t ih =>
    cases t with
    | nil =>
      intro w hw ch hch
      by_cases hc : isWS c
      · simp [pySplit, hc] at hw
      · simp only [pySplit, hc, Bool.false_eq_true, if_false,
          List.mem_singleton] at hw
        subst hw
        rcases List.mem_singleton.mp hch with rfl
        exact List.mem_singleton_self _
    | cons d rest =>
      intro w hw ch hch
      by_cases hc : isWS c
      · rw [show pySplit (c :: d :: rest) = pySplit (d :: rest) by
          simp [pySplit, hc]] at hw
        exact List.mem_cons_of_mem c (ih w hw ch hch)
      · by_cases hd : isWS d
        · rw [show pySplit (c :: d :: rest) = [c] :: pySplit (d :: rest) by
            simp [pySplit, hc, hd]] at hw
          rcases List.mem_cons.mp hw with rfl | hw'
          · rcases List.mem_singleton.mp hch with rfl
            exact List.mem_cons_self ch _
          · exact List.mem_cons_of_mem c (ih w hw' ch hch)
        · rcases hps : pySplit (d :: rest) with _ | ⟨w0, r0⟩
          · rw [show pySplit (c :: d :: rest) = [[c]] by
              simp [pySplit, hc, hd, hps]] at hw
            rcases List.mem_singleton.mp hw with rfl
            rcases List.mem_singleton.mp hch with rfl
            exact List.mem_cons_self ch _
          · rw [show pySplit (c :: d :: rest) = (c :: w0) :: r0 by
              simp [pySplit, hc, hd, hps]] at hw
            rcases List.mem_cons.mp hw with rfl | hw'
            · rcases List.mem_cons.mp hch with rfl | hch'
              · exact List.mem_cons_self ch _
              · exact List.mem_cons_of_mem c
                  (ih w0 (by rw [hps]; exact List.mem_cons_self w0 r0) ch hch')
            · exact List.mem_cons_of_mem c
                (ih w (by rw [hps]; exact List.mem_cons_of_mem w0 hw') ch hch)

/-- Splitting drops a leading whitespace character. -/
lemma pySplit_ws_cons {c : Char} (t : Str) (h : isWS c = true) :
    pySplit (c :: t) = pySplit t := by
  cases t with
  | nil => simp [pySplit, h]
  | cons d rest => simp [pySplit, h]

/-- Splitting a whitespace-free word is the word itself. -/
lemma pySplit_wsfree : ∀ (w : Str), w ≠ [] → (∀ ch ∈ w, isWS ch = false) →
    pySplit w = [w] := by
  intro w
  induction w with
  | nil => intro h; exact absurd rfl h
  | cons c w' ih =>
    intro _ hws
    have hc : isWS c = false := hws c (List.mem_cons_self c w')
    cases w' with
    | nil => simp [pySplit, hc]
    | cons d w'' =>
      have hd : isWS d = false := hws d (List.mem_cons_of_mem c (List.mem_cons_self d w''))
      have hrec : pySplit (d :: w'') = [d :: w''] := by
        refine ih (by simp) ?_
        intro ch hch
        exact hws ch (List.mem_cons_of_mem c hch)
      simp [pySplit, hc, hd, hrec]

/-- Splitting a whitespace-free word glued with a space in front of a
tail splits into the word followed by the split of the tail. -/
lemma pySplit_word_append : ∀ (w : Str), w ≠ [] →
    (∀ ch ∈ w, isWS ch = false) → ∀ (t : Str),
    pySplit (w ++ ' ' :: t) = w :: pySplit t := by
  intro w
  induction w with
  | nil => intro h; exact absurd rfl h
  | cons c w' ih =>
    intro _ hws t
    have hc : isWS c = false := hws c (List.mem_cons_self c w')
    cases w' with
    | nil =>
      have hsp : pySplit (' ' :: t) = pySplit t :=
        pySplit_ws_cons t (by simp [isWS])
      simp [pySplit, hc, hsp, show isWS ' ' = true from rfl]
    | cons d w'' =>
      have hd : isWS d = false := hws d (List.mem_cons_of_mem c (List.mem_cons_self d w''))
      have hrec : pySplit ((d :: w'') ++ ' ' :: t) = (d :: w'') :: pySplit t := by
        refine ih (by simp) ?_ t
        intro ch hch
        exact hws ch (List.mem_cons_of_mem c hch)
      rw [show (c :: d :: w'') ++ ' ' :: t = c :: ((d :: w'') ++ ' ' :: t) from rfl]
      rw [show (d :: w'') ++ ' ' :: t = d :: (w'' ++ ' ' :: t) from rfl] at hrec ⊢
      simp [pySplit, hc, hd, hrec]

end TestMatch

namespace TestMatch

/-- Splitting the space-join of non-empty whitespace-free words recovers
exactly the words. -/
lemma pySplit_joinSpace : ∀ (ws : List Str),
    (∀ w ∈ ws, w ≠ [] ∧ ∀ ch ∈ w, isWS ch = false) →
    pySplit (joinSpace ws) = ws := by
  intro ws
  induction ws with
  | nil => intro _; rfl
  | cons w ws' ih =>
    intro h
    obtain ⟨hwne, hwws⟩ := h w (List.mem_cons_self w ws')
    cases ws' with
    | nil =>
      rw [show joinSpace [w] = w from rfl]
      exact pySplit_wsfree w hwne hwws
    | cons w2 ws'' =>
      rw [show joinSpace (w :: w2 :: ws'') = w ++ ' ' :: joinSpace (w2 :: ws'')
        from rfl]
      rw [pySplit_word_append w hwne hwws]
      rw [ih fun v hv => h v (List.mem_cons_of_mem w hv)]

/-- Characters of a space-join are spaces or characters of the words. -/
lemma joinSpace_chars : ∀ (ws : List Str) (ch : Char),
    ch ∈ joinSpace ws → ch = ' ' ∨ ∃ w ∈ ws, ch ∈ w := by
  intro ws
  induction ws with
  | nil => intro ch hch; simp [joinSpace] at hch
  | cons w ws' ih =>
    intro ch hch
    cases ws' with
    | nil =>
      rw [show joinSpace [w] = w from rfl] at hch
      exact Or.inr ⟨w, List.mem_cons_self w [], hch⟩
    | cons w2 ws'' =>
      rw [show joinSpace (w :: w2 :: ws'') = w ++ ' ' :: joinSpace (w2 :: ws'')
        from rfl] at hch
      rcases List.mem_append.mp hch with hch' | hch'
      · exact Or.inr ⟨w, List.mem_cons_self w _, hch'⟩
      · rcases List.mem_cons.mp hch' with rfl | hch''
        · exact Or.inl rfl
        · rcases ih ch hch'' with h | ⟨v, hv, hchv⟩
          · exact Or.inl h
          · exact Or.inr ⟨v, List.mem_cons_of_mem w hv, hchv⟩

/-- The space-join of non-empty words starts with a word character. -/
lemma joinSpace_head : ∀ (ws : List Str),
    (∀ w ∈ ws, w ≠ [] ∧ ∀ ch ∈ w, isWS ch = false) →
    ∀ x, (joinSpace ws).head? = some x → isWS x = false := by
  intro ws
  induction ws with
  | nil => intro _ x hx; simp [joinSpace] at hx
  | cons w ws' ih =>
    intro h x hx
    obtain ⟨hwne, hwws⟩ := h w (List.mem_cons_self w ws')
    obtain ⟨c, w', rfl⟩ : ∃ c w', w = c :: w' := by
      rcases w with _ | ⟨c, w'⟩
      · exact absurd rfl hwne
      · exact ⟨c, w', rfl⟩
    cases ws' with
    | nil =>
      rw [show joinSpace [c :: w'] = c :: w' from rfl] at hx
      rcases Option.some.inj hx.symm with rfl
      exact hwws x (List.mem_cons_self x w')
    | cons w2 ws'' =>
      rw [show joinSpace ((c :: w') :: w2 :: ws'') =
        c :: (w' ++ ' ' :: joinSpace (w2 :: ws'')) from rfl] at hx
      rcases Option.some.inj hx.symm with rfl
      exact hwws x (List.mem_cons_self x w')

/-- The space-join of non-empty words is non-empty. -/
lemma joinSpace_ne_nil : ∀ (ws : List Str), ws ≠ [] →
    (∀ w ∈ ws, w ≠ []) → joinSpace ws ≠ [] := by
  intro ws hne h
  rcases ws with _ | ⟨w, ws'⟩
  · exact absurd rfl hne
  · have hwne := h w (List.mem_cons_self w ws')
    rcases w with _ | ⟨c, w'⟩
    · exact absurd rfl hwne
    · cases ws' with
      | nil => simp [joinSpace]
      | cons w2 ws'' =>
        rw [show joinSpace ((c :: w') :: w2 :: ws'') =
          c :: (w' ++ ' ' :: joinSpace (w2 :: ws'')) from rfl]
        simp

/-- The space-join of non-empty whitespace-free words ends with a word
character. -/
lemma joinSpace_last : ∀ (ws : List Str),
    (∀ w ∈ ws, w ≠ [] ∧ ∀ ch ∈ w, isWS ch = false) →
    ∀ x, (joinSpace ws).getLast? = some x → isWS x = false := by
  intro ws
  induction ws with
  | nil => intro _ x hx; simp [joinSpace] at hx
  | cons w ws' ih =>
    intro h x hx
    obtain ⟨hwne, hwws⟩ := h w (List.mem_cons_self w ws')
    cases ws' with
    | nil =>
      rw [show joinSpace [w] = w from rfl] at hx
      exact hwws x (List.mem_of_mem_getLast? hx)
    | cons w2 ws'' =>
      rw [show joinSpace (w :: w2 :: ws'') = w ++ ' ' :: joinSpace (w2 :: ws'')
        from rfl] at hx
      rw [List.getLast?_append_of_ne_nil w (by simp)] at hx
      have hjoin_ne : joinSpace (w2 :: ws'') ≠ [] := by
        refine joinSpace_ne_nil (w2 :: ws'') (by simp) ?_
        intro v hv
        exact (h v (List.mem_cons_of_mem w hv)).1
      rw [show (' ' :: joinSpace (w2 :: ws'')) = [' '] ++ joinSpace (w2 :: ws'')
        from rfl, List.getLast?_append_of_ne_nil [' '] hjoin_ne] at hx
      exact ih (fun v hv => h v (List.mem_cons_of_mem w hv)) x hx

/-- Characters survive `pyStrip`. -/
lemma pyStrip_mem (l : Str) (ch : Char) (h : ch ∈ pyStrip l) : ch ∈ l := by
  unfold pyStrip at h
  rw [List.mem_reverse] at h
  have h1 := (List.dropWhile_suffix (l := (l.dropWhile isWS).reverse) isWS).mem h
  rw [List.mem_reverse] at h1
  exact (List.dropWhile_suffix (l := l) isWS).mem h1

/-- `pyStrip` is the identity on a string that neither starts nor ends
with whitespace. -/
lemma pyStrip_eq_self (l : Str)
    (hh : ∀ x, l.head? = some x → isWS x = false)
    (hl : ∀ x, l.getLast? = some x → isWS x = false) :
    pyStrip l = l := by
  have h1 : l.dropWhile isWS = l := by
    rcases l with _ | ⟨c, t⟩
    · rfl
    · rw [List.dropWhile_cons, if_neg]
      simp [hh c rfl]
  unfold pyStrip
  rw [h1]
  have h2 : l.reverse.dropWhile isWS = l.reverse := by
    rcases hr : l.reverse with _ | ⟨c, t⟩
    · rfl
    · rw [List.dropWhile_cons, if_neg]
      have : l.getLast? = some c := by
        rw [← List.head?_reverse, hr]
        rfl
      simp [hl c this]
  rw [h2, List.reverse_reverse]

end TestMatch

namespace TestMatch

/-- Lowercasing fixes a space. -/
lemma toLower_space : Char.toLower ' ' = ' ' :=
  toLower_of_not_upper (by rw [show (' ' : Char).toNat = 32 from rfl]; omega)

/-- `norm_str` is idempotent: its output is lowercase, trimmed, and
single-space separated, so a second pass changes nothing. -/
theorem norm_str_idem (s : Str) : norm_str (norm_str s) = norm_str s := by
  unfold norm_str
  by_cases hs : s = []
  · simp [hs]
  · rw [if_neg hs]
    by_cases hrnil : joinSpace (pySplit (pyStrip (s.map Char.toLower))) = []
    · rw [if_pos hrnil, hrnil]
    · rw [if_neg hrnil]
      have hwords := pySplit_words (pyStrip (s.map Char.toLower))
      have hchars : ∀ ch ∈ joinSpace (pySplit (pyStrip (s.map Char.toLower))),
          Char.toLower ch = ch := by
        intro ch hch
        rcases joinSpace_chars _ ch hch with rfl | ⟨w, hw, hchw⟩
        · exact toLower_space
        · have h1 : ch ∈ pyStrip (s.map Char.toLower) :=
            pySplit_mem_chars _ w hw ch hchw
          have h2 : ch ∈ s.map Char.toLower := pyStrip_mem _ ch h1
          rcases List.mem_map.mp h2 with ⟨c0, _, rfl⟩
          exact toLower_idem c0
      have hmap : (joinSpace (pySplit (pyStrip (s.map Char.toLower)))).map
          Char.toLower = joinSpace (pySplit (pyStrip (s.map Char.toLower))) := by
        rw [show joinSpace (pySplit (pyStrip (s.map Char.toLower))) =
          (joinSpace (pySplit (pyStrip (s.map Char.toLower)))).map id by
            rw [List.map_id]]
        rw [List.map_map]
        exact List.map_congr_left fun a ha => by
          simpa using hchars a (by simpa using ha)
      rw [hmap]
      rw [pyStrip_eq_self _ (joinSpace_head _ hwords) (joinSpace_last _ hwords)]
      rw [pySplit_joinSpace _ hwords]

end TestMatch

/-- Heads of `dropWhile` results falsify the predicate. -/
lemma dropWhile_head_false (p : Char → Bool) (l : Str) :
    ∀ x, (l.dropWhile p).head? = some x → p x = false := by
  intro x hx
  have h := List.head?_dropWhile_not p l
  rw [hx] at h
  exact h

namespace MatchPy

/-- The two scripts' `strip()` embeddings coincide. -/
lemma pyStrip_eq_testmatch : @pyStrip = @TestMatch.pyStrip := rfl

/-- Characters of a collapsed string are spaces or input characters. -/
lemma collapseWS_chars : ∀ (l : Str) (ch : Char), ch ∈ collapseWS l →
    ch = ' ' ∨ ch ∈ l := by
  intro l
  induction l with
  | nil => intro ch hch; simp [collapseWS] at hch
  | cons c t ih =>
    cases t with
    | nil =>
      intro ch hch
      by_cases hc : isWS c
      · simp only [collapseWS, hc, if_true, List.mem_singleton] at hch
        exact Or.inl hch
      · simp only [collapseWS, hc, Bool.false_eq_true, if_false,
          List.mem_singleton] at hch
        exact Or.inr (by rw [hch]; exact List.mem_singleton_self _)
    | cons d rest =>
      intro ch hch
      by_cases hcd : isWS c && isWS d
      · rw [show collapseWS (c :: d :: rest) = collapseWS (d :: rest) by
          simp [collapseWS, hcd]] at hch
        rcases ih ch hch with h | h
        · exact Or.inl h
        · exact Or.inr (List.mem_cons_of_mem c h)
      · rw [show collapseWS (c :: d :: rest) =
          (if isWS c then ' ' else c) :: collapseWS (d :: rest) by
            simp [collapseWS, hcd]] at hch
        rcases List.mem_cons.mp hch with rfl | hch'
        · by_cases hc : isWS c
          · rw [if_pos hc]; exact Or.inl rfl
          · rw [if_neg hc]; exact Or.inr (List.mem_cons_self c _)
        · rcases ih ch hch' with h | h
          · exact Or.inl h
          · exact Or.inr (List.mem_cons_of_mem c h)

/-- The head of a collapsed non-empty string is the (possibly
space-replaced) first character. -/
lemma collapseWS_head : ∀ (rest : Str) (d : Char), ∃ tl,
    collapseWS (d :: rest) = (if isWS d then ' ' else d) :: tl := by
  intro rest
  induction rest with
  | nil =>
    intro d
    by_cases hd : isWS d
    · exact ⟨[], by simp [collapseWS, hd]⟩
    · exact ⟨[], by simp [collapseWS, hd]⟩
  | cons e rest' ih =>
    intro d
    by_cases hde : isWS d && isWS e
    · obtain ⟨tl, htl⟩ := ih e
      have hde' := hde
      rw [Bool.and_eq_true] at hde'
      obtain ⟨hd, he⟩ := hde' 
      refine ⟨tl, ?_⟩
      rw [show collapseWS (d :: e :: rest') = collapseWS (e :: rest') by
        simp [collapseWS, hde], htl, he, hd]
      simp
    · exact ⟨collapseWS (e :: rest'), by
        rw [show collapseWS (d :: e :: rest') =
          (if isWS d then ' ' else d) :: collapseWS (e :: rest') by
            simp [collapseWS, hde]]⟩

/-- A collapsed string never has two adjacent whitespace characters. -/
lemma collapseWS_noAdj : ∀ (l : Str),
    (collapseWS l).Chain' (fun a b => ¬(isWS a = true ∧ isWS b = true)) := by
  intro l
  induction l with
  | nil => simp [collapseWS]
  | cons c t ih =>
    cases t with
    | nil =>
      by_cases hc : isWS c <;> simp [collapseWS, hc]
    | cons d rest =>
      by_cases hcd : isWS c && isWS d
      · rw [show collapseWS (c :: d :: rest) = collapseWS (d :: rest) by
          simp [collapseWS, hcd]]
        exact ih
      · rw [show collapseWS (c :: d :: rest) =
          (if isWS c then ' ' else c) :: collapseWS (d :: rest) by
            simp [collapseWS, hcd]]
        rw [List.chain'_cons']
        refine ⟨?_, ih⟩
        intro y hy
        obtain ⟨tl, htl⟩ := collapseWS_head rest d
        rw [htl] at hy
        rcases Option.some.inj hy.symm with rfl
        by_cases hc : isWS c
        · have hd : isWS d = false := by
            rcases Bool.and_eq_false_iff.mp (by simpa using hcd) with h | h
            · exact absurd hc (by simp [h])
            · exact h
          rw [if_pos hc, if_neg (by simp [hd])]
          intro hcontra
          rw [hd] at hcontra
          exact Bool.false_ne_true hcontra.2
        · rw [if_neg hc]
          intro hcontra
          exact hc hcontra.1

/-- Collapsing is the identity on a string with no adjacent whitespace
whose only whitespace character is the space. -/
lemma collapseWS_eq_self : ∀ (l : Str),
    l.Chain' (fun a b => ¬(isWS a = true ∧ isWS b = true)) →
    (∀ ch ∈ l, isWS ch = true → ch = ' ') →
    collapseWS l = l := by
  intro l
  induction l with
  | nil => intro _ _; rfl
  | cons c t ih =>
    cases t with
    | nil =>
      intro _ hws
      by_cases hc : isWS c
      · rw [show collapseWS [c] = [' '] by simp [collapseWS, hc],
          hws c (List.mem_singleton_self c) hc]
      · simp [collapseWS, hc]
    | cons d rest =>
      intro hchain hws
      have hnd : ¬(isWS c = true ∧ isWS d = true) :=
        (List.chain'_cons.mp hchain).1
      have hcd : (isWS c && isWS d) = false := by
        cases hc : isWS c with
        | false => simp [hc]
        | true =>
          have hd : isWS d = false := by
            cases hdv : isWS d with
            | false => rfl
            | true => exact absurd ⟨hc, hdv⟩ hnd
          simp [hd]
      rw [show collapseWS (c :: d :: rest) =
        (if isWS c then ' ' else c) :: collapseWS (d :: rest) by
          simp [collapseWS, hcd]]
      rw [ih (List.chain'_cons.mp hchain).2
        (fun ch hch => hws ch (List.mem_cons_of_mem c hch))]
      by_cases hc : isWS c
      · rw [if_pos hc, hws c (List.mem_cons_self c _) hc]
      · rw [if_neg hc]

end MatchPy

namespace MatchPy

/-- `pyStrip` keeps a contiguous piece of its input. -/
lemma pyStrip_contiguous (l : Str) : pyStrip l <:+: l := by
  unfold pyStrip
  have h1 : (l.dropWhile isWS) <:+ l := List.dropWhile_suffix isWS
  have h2 : ((l.dropWhile isWS).reverse.dropWhile isWS) <:+
      (l.dropWhile isWS).reverse := List.dropWhile_suffix isWS
  have h3 : ((l.dropWhile isWS).reverse.dropWhile isWS).reverse <+:
      l.dropWhile isWS := by
    have h4 := List.reverse_prefix.mpr h2
    simpa using h4
  exact h3.isInfix.trans h1.isInfix

/-- The head of a stripped string is not whitespace. -/
lemma pyStrip_head (l : Str) :
    ∀ x, (pyStrip l).head? = some x → isWS x = false := by
  intro x hx
  unfold pyStrip at hx
  rw [List.head?_reverse] at hx
  rcases hX : (l.dropWhile isWS).reverse.dropWhile isWS with _ | ⟨c, tl⟩
  · rw [hX] at hx; simp at hx
  · rw [hX] at hx
    obtain ⟨pre, hpre⟩ := List.dropWhile_suffix
      (l := (l.dropWhile isWS).reverse) isWS
    rw [hX] at hpre
    have h4 : (pre ++ c :: tl).getLast? = some x := by
      rw [List.getLast?_append_of_ne_nil pre (by simp)]
      exact hx
    rw [hpre, List.getLast?_reverse] at h4
    exact dropWhile_head_false isWS l x h4

/-- The last character of a stripped string is not whitespace. -/
lemma pyStrip_last (l : Str) :
    ∀ x, (pyStrip l).getLast? = some x → isWS x = false := by
  intro x hx
  unfold pyStrip at hx
  rw [List.getLast?_reverse] at hx
  exact dropWhile_head_false isWS (l.dropWhile isWS).reverse x hx

/-- Replacing `&` is the identity on an ampersand-free string. -/
lemma replaceAmp_eq_self : ∀ (l : Str), (∀ ch ∈ l, ch ≠ '&') →
    replaceAmp l = l := by
  intro l
  induction l with
  | nil => intro _; rfl
  | cons c t ih =>
    intro h
    unfold replaceAmp
    rw [List.flatMap_cons]
    rw [if_neg (h c (List.mem_cons_self c t))]
    rw [show List.flatMap t (fun c => if c = '&' then (" AND ").toList else [c]) =
      replaceAmp t from rfl]
    rw [ih fun ch hch => h ch (List.mem_cons_of_mem c hch)]
    rfl

/-- The suffix-stripping pass is the identity when neither suffix
matches. -/
lemma stripSuffixes_eq_self (l : Str)
    (h1 : ((" LTD").toList).isSuffixOf l = false)
    (h2 : ((" LIMITED").toList).isSuffixOf l = false) :
    stripSuffixes l = l := by
  unfold stripSuffixes STOP_SUFFIXES
  rw [List.foldl_cons, List.foldl_cons, List.foldl_nil]
  rw [h1]
  simp only [Bool.false_eq_true, if_false]
  rw [h2]
  simp only [Bool.false_eq_true, if_false]

/-- Uppercasing fixes every character of the kept class. -/
lemma toUpper_keep (c : Char) (hk : isKeep c = true) : Char.toUpper c = c := by
  apply toUpper_of_not_lower
  simp only [isKeep, Bool.or_eq_true, Bool.and_eq_true, decide_eq_true_eq] at hk
  rcases hk with (⟨h1, h2⟩ | ⟨h1, h2⟩) | h1
  · have := char_le_iff_toNat.mp h2
    rw [show ('Z' : Char).toNat = 90 from rfl] at this
    omega
  · have := char_le_iff_toNat.mp h2
    rw [show ('9' : Char).toNat = 57 from rfl] at this
    omega
  · subst h1
    rw [show (' ' : Char).toNat = 32 from rfl]
    omega

/-- A whitespace character of the kept class is the space. -/
lemma keep_ws_eq_space (c : Char) (hk : isKeep c = true)
    (hw : isWS c = true) : c = ' ' := by
  simp only [isWS, Bool.or_eq_true, decide_eq_true_eq] at hw
  rcases hw with ((((h | h) | h) | h) | h) | h
  · exact h
  · subst h; exact absurd hk (by decide)
  · subst h; exact absurd hk (by decide)
  · subst h; exact absurd hk (by decide)
  · subst h; exact absurd hk (by decide)
  · subst h; exact absurd hk (by decide)

/-- Every character of a normalized name is in the kept class. -/
lemma normalize_name_chars (s : Str) :
    ∀ ch ∈ normalize_name s, isKeep ch = true := by
  intro ch hch
  unfold normalize_name at hch
  by_cases hs : s = []
  · rw [if_pos hs] at hch; simp at hch
  · rw [if_neg hs] at hch
    have h1 : ch ∈ collapseWS
        ((stripSuffixes (replaceAmp (s.map Char.toUpper))).filter isKeep) :=
      (pyStrip_contiguous _).mem hch
    rcases collapseWS_chars _ ch h1 with rfl | h2
    · decide
    · exact List.of_mem_filter h2

end MatchPy

/-- A map whose function fixes every member is the identity. -/
lemma list_map_eq_self {f : Char → Char} : ∀ (l : Str),
    (∀ ch ∈ l, f ch = ch) → l.map f = l := by
  intro l h
  induction l with
  | nil => rfl
  | cons c t ih =>
    rw [List.map_cons, h c (List.mem_cons_self c t),
      ih fun ch hch => h ch (List.mem_cons_of_mem c hch)]

namespace MatchPy

/-- `normalize_name` is idempotent on every input whose normalized form
does not itself end in a legal-entity suffix: the output is already
uppercase, `&`-free, restricted to `[A-Z0-9 ]`, single-spaced and
trimmed, so only the suffix-stripping pass could act again. -/
theorem normalize_name_idem_of_no_suffix (s : Str)
    (h1 : ((" LTD").toList).isSuffixOf (normalize_name s) = false)
    (h2 : ((" LIMITED").toList).isSuffixOf (normalize_name s) = false) :
    normalize_name (normalize_name s) = normalize_name s := by
  by_cases hr : normalize_name s = []
  · rw [hr]; rfl
  · have hs : s ≠ [] := fun h => hr (by rw [h]; rfl)
    have hrdef : normalize_name s = pyStrip (collapseWS
        ((stripSuffixes (replaceAmp (s.map Char.toUpper))).filter isKeep)) := by
      rw [normalize_name, if_neg hs]
    have hkeep : ∀ ch ∈ normalize_name s, isKeep ch = true :=
      normalize_name_chars s
    have hmap : (normalize_name s).map Char.toUpper = normalize_name s :=
      list_map_eq_self _ fun ch hch => toUpper_keep ch (hkeep ch hch)
    have hamp : replaceAmp (normalize_name s) = normalize_name s := by
      refine replaceAmp_eq_self _ ?_
      intro ch hch heq
      subst heq
      exact absurd (hkeep _ hch) (by decide)
    have hstrip : stripSuffixes (normalize_name s) = normalize_name s :=
      stripSuffixes_eq_self _ h1 h2
    have hfilter : (normalize_name s).filter isKeep = normalize_name s :=
      List.filter_eq_self.mpr hkeep
    have hchain : (normalize_name s).Chain'
        (fun a b => ¬(isWS a = true ∧ isWS b = true)) := by
      rw [hrdef]
      exact List.Chain'.infix (collapseWS_noAdj _) (pyStrip_contiguous _)
    have hspace : ∀ ch ∈ normalize_name s, isWS ch = true → ch = ' ' :=
      fun ch hch hw => keep_ws_eq_space ch (hkeep ch hch) hw
    have hcollapse : collapseWS (normalize_name s) = normalize_name s :=
      collapseWS_eq_self _ hchain hspace
    have hhead : ∀ x, (normalize_name s).head? = some x → isWS x = false := by
      intro x hx
      rw [hrdef] at hx
      exact pyStrip_head _ x hx
    have hlast : ∀ x, (normalize_name s).getLast? = some x → isWS x = false := by
      intro x hx
      rw [hrdef] at hx
      exact pyStrip_last _ x hx
    have hstripid : pyStrip (normalize_name s) = normalize_name s :=
      TestMatch.pyStrip_eq_self (normalize_name s) hhead hlast
    conv_lhs => rw [normalize_name]
    rw [if_neg hr, hmap, hamp, hstrip, hfilter, hcollapse, hstripid]

end MatchPy

/-- C4 counterexample: `normalize_name` is not idempotent. On
`"X LTD LTD"` the first pass strips one `" LTD"` suffix, leaving
`"X LTD"`; a second pass strips again, producing `"X"`. -/
theorem C4_normalize_name_not_idempotent :
    MatchPy.normalize_name (MatchPy.normalize_name (("X LTD LTD").toList)) ≠
      MatchPy.normalize_name (("X LTD LTD").toList) := by decide

/-- C4 (amended): `norm_str` and `norm_postcode` are idempotent on every
input; `normalize_name` is idempotent exactly on the inputs whose
normalized form does not itself end in `" LTD"` or `" LIMITED"` — when it
does, a second application strips a further suffix. -/
theorem C4_normalization_idempotent (s pc t : Str)
    (h1 : ((" LTD").toList).isSuffixOf (MatchPy.normalize_name t) = false)
    (h2 : ((" LIMITED").toList).isSuffixOf (MatchPy.normalize_name t) = false) :
    TestMatch.norm_str (TestMatch.norm_str s) = TestMatch.norm_str s ∧
    TestMatch.norm_postcode (TestMatch.norm_postcode pc) =
      TestMatch.norm_postcode pc ∧
    MatchPy.normalize_name (MatchPy.normalize_name t) =
      MatchPy.normalize_name t :=
  ⟨TestMatch.norm_str_idem s, TestMatch.norm_postcode_idem pc,
    MatchPy.normalize_name_idem_of_no_suffix t h1 h2⟩

/-- Witness for the amended C4 at concrete strings, including a name with
mixed case, an ampersand and one legal-entity suffix. -/
theorem C4_normalization_idempotent_witness :
    TestMatch.norm_str (TestMatch.norm_str (("  Crown   Anchor ").toList)) =
      TestMatch.norm_str (("  Crown   Anchor ").toList) ∧
    TestMatch.norm_postcode (TestMatch.norm_postcode (("sw1a 1aa").toList)) =
      TestMatch.norm_postcode (("sw1a 1aa").toList) ∧
    MatchPy.normalize_name (MatchPy.normalize_name
        (("The Crown & Anchor LTD").toList)) =
      MatchPy.normalize_name (("The Crown & Anchor LTD").toList) :=
  C4_normalization_idempotent (("  Crown   Anchor ").toList)
    (("sw1a 1aa").toList) (("The Crown & Anchor LTD").toList)
    (by decide) (by decide)
